import Mathlib

/-!
snakeCharm: the schema-to-binding engine of `main.go`.

A shallow embedding of `src/main.go`: the `ConfigEntry` tree, the registration
traversal `addConfigChildren`, the validation traversal `verifyRequiredConfigs`
and the orchestration `BuildConfig`.

Modelling conventions.
* A schema is a finite tree of distinct nodes (`[]*ConfigEntry` without nil
  pointers, sharing or cycles); the in-place write `SetPrefix` becomes a
  function returning the updated node, and the traversals that mutate the tree
  return the updated tree next to their Go result.
* A Go panic (and a process exit inside the flag library) is the `error` side
  of `Except Fatal _`.
* The process-wide flag registry `pflag.CommandLine` is passed explicitly as a
  `FlagSet`; the store `*viper.Viper` is the record `Viper`.
* Go `int` values are never computed on here, so they are `Int`.
-/

namespace SnakeCharm

/-! ## Constants and the data model -/

def StringType : String := "string"
def BoolType : String := "bool"
def IntType : String := "int"
def ParentType : String := "parent"

/-- Dynamic content of the `Default interface{}` field (and of a store value):
the three types the accessors assert, `nil`, and any other dynamic type. -/
inductive Value where
  | nil
  | str (s : String)
  | int (i : Int)
  | bool (b : Bool)
  | other (descr : String)
  deriving DecidableEq, Repr

/-- The ways the process can stop without the function returning. -/
inductive Fatal where
  /-- `panic(fmt.Sprintf("%s is of unknown type: %s", ...))` in `addConfigChildren`. -/
  | unknownType (msg : String)
  /-- A failed single-value type assertion `ce.Default.(T)`. -/
  | typeAssertion (want : String)
  /-- The flag library panics when a flag name is declared twice. -/
  | flagRedefined (name : String)
  /-- The flag library exits the process while parsing the command line. -/
  | exit (code : Nat)
  deriving DecidableEq, Repr

/-- Whether the abnormal termination is a Go panic. -/
def Fatal.isPanic : Fatal → Bool
  | .exit _ => false
  | _ => true

/-- The Go struct `ConfigEntry`; `Typ` is the field `Type` and `pfx` the
unexported field `prefix`. -/
inductive ConfigEntry where
  | mk (Typ : String) (Name : String) (Help : String) (Required : Bool)
      (Default : Value) (Children : List ConfigEntry) (pfx : String)

namespace ConfigEntry

def Typ : ConfigEntry → String
  | mk t _ _ _ _ _ _ => t

def Name : ConfigEntry → String
  | mk _ n _ _ _ _ _ => n

def Help : ConfigEntry → String
  | mk _ _ h _ _ _ _ => h

def Required : ConfigEntry → Bool
  | mk _ _ _ r _ _ _ => r

def Default : ConfigEntry → Value
  | mk _ _ _ _ d _ _ => d

def Children : ConfigEntry → List ConfigEntry
  | mk _ _ _ _ _ c _ => c

def pfx : ConfigEntry → String
  | mk _ _ _ _ _ _ p => p

def IsString (ce : ConfigEntry) : Bool := ce.Typ == StringType

def IsParent (ce : ConfigEntry) : Bool := ce.Typ == ParentType

def IsBool (ce : ConfigEntry) : Bool := ce.Typ == BoolType

def IsInt (ce : ConfigEntry) : Bool := ce.Typ == IntType

/-- `ce.Default.(string)`: panics unless the dynamic type is `string`. -/
def GetString (ce : ConfigEntry) : Except Fatal String :=
  match ce.Default with
  | .str s => .ok s
  | _ => .error (.typeAssertion "string")

/-- `ce.Default.(int)`. -/
def GetInt (ce : ConfigEntry) : Except Fatal Int :=
  match ce.Default with
  | .int i => .ok i
  | _ => .error (.typeAssertion "int")

/-- `ce.Default.(bool)`. -/
def GetBool (ce : ConfigEntry) : Except Fatal Bool :=
  match ce.Default with
  | .bool b => .ok b
  | _ => .error (.typeAssertion "bool")

def GetName (ce : ConfigEntry) : String :=
  if ce.pfx = "" then ce.Name else ce.pfx ++ "." ++ ce.Name

def SetPrefix : ConfigEntry → String → ConfigEntry
  | mk t n h r d c _, p => mk t n h r d c p

end ConfigEntry

/-! ## Library functions used by the source -/

/-- Scan of `strings.Replace` for a non-empty `old`: left to right, every
non-overlapping occurrence of `old` is replaced by `new`; `skip` is the number
of characters of the occurrence just matched that are still to be dropped. -/
def replaceScan (old new : List Char) : Nat → List Char → List Char
  | _, [] => []
  | skip + 1, _ :: cs => replaceScan old new skip cs
  | 0, c :: cs =>
    if old.isPrefixOf (c :: cs) then new ++ replaceScan old new (old.length - 1) cs
    else c :: replaceScan old new 0 cs

/-- An empty `old` matches before every character and at the end. -/
def replaceEmpty (new : List Char) : List Char → List Char
  | [] => new
  | c :: cs => new ++ c :: replaceEmpty new cs

/-- Go `strings.Replace(s, old, new, -1)` (no limit on the replacements). -/
def stringsReplaceAll (s old new : String) : String :=
  if old.data.isEmpty then ⟨replaceEmpty new.data s.data⟩
  else ⟨replaceScan old.data new.data 0 s.data⟩

/-- Go `fmt.Sprintf("%v", xs)` for a `[]string`: the elements between square
brackets, separated by single spaces. -/
def sprintV (xs : List String) : String :=
  "[" ++ " ".intercalate xs ++ "]"

def ConfigEntry.FlagName (ce : ConfigEntry) : String :=
  stringsReplaceAll ce.GetName "." "-"

/-! ## The flag registry and the resolution store -/

/-- One declared command-line flag of `pflag`. -/
structure Flag where
  Name : String
  Usage : String
  DefValue : Value
  Value : Value
  Changed : Bool
  deriving DecidableEq, Repr

/-- The flag registry, in declaration order. -/
abbrev FlagSet := List Flag

/-- `pflag.Lookup(name)`: the declared flag of that name, or nil. -/
def FlagSet.Lookup (fs : FlagSet) (name : String) : Option Flag :=
  fs.find? (fun f => f.Name == name)

/-- Modelled from the spec: flag declaration of the external flag library
(`pflag.Bool`, `pflag.Int`, `pflag.String`). It adds a flag with the given
zero default and help text; "registering the same flag name twice is an error
in the underlying store", which the library raises as a panic. -/
def FlagSet.declare (fs : FlagSet) (name : String) (zero : Value) (usage : String) :
    Except Fatal FlagSet :=
  if (fs.Lookup name).isSome then .error (.flagRedefined name)
  else .ok (fs ++ [⟨name, usage, zero, zero, false⟩])

/-- Modelled from the spec: the state of the external resolution store that the
core configures (set-default, bind-flag-by-name, environment-key translation,
automatic environment lookup, config-file search). `defaults` and `pflags`
hold the most recent entry first; a binding records the name of the bound
flag. -/
structure Viper where
  defaults : List (String × Value)
  pflags : List (String × String)
  envKeyReplacer : Option (String × String)
  automaticEnvApplied : Bool
  configName : String
  configPaths : List String
  config : List (String × Value)
  deriving DecidableEq, Repr

namespace Viper

/-- `viper.New()`. -/
def New : Viper :=
  { defaults := [], pflags := [], envKeyReplacer := none, automaticEnvApplied := false,
    configName := "config", configPaths := [], config := [] }

/-- `cfg.SetDefault(key, value)`. -/
def SetDefault (cfg : Viper) (key : String) (value : Value) : Viper :=
  { cfg with defaults := (key, value) :: cfg.defaults }

/-- The default the store currently holds for `key`. -/
def defaultOf (cfg : Viper) (key : String) : Option Value :=
  cfg.defaults.lookup key

/-- `cfg.BindPFlag(key, flag)`: a nil flag is refused with an error and leaves
the store unchanged. -/
def BindPFlag (cfg : Viper) (key : String) (flag : Option Flag) : Viper × Option String :=
  match flag with
  | none => (cfg, some ("flag for " ++ key ++ " is nil"))
  | some f => ({ cfg with pflags := (key, f.Name) :: cfg.pflags }, none)

/-- The name of the flag the store currently binds to `key`. -/
def boundFlag (cfg : Viper) (key : String) : Option String :=
  cfg.pflags.lookup key

def SetEnvKeyReplacer (cfg : Viper) (old new : String) : Viper :=
  { cfg with envKeyReplacer := some (old, new) }

def AutomaticEnv (cfg : Viper) : Viper :=
  { cfg with automaticEnvApplied := true }

def SetConfigName (cfg : Viper) (name : String) : Viper :=
  { cfg with configName := name }

def AddConfigPath (cfg : Viper) (path : String) : Viper :=
  { cfg with configPaths := cfg.configPaths ++ [path] }

end Viper

/-- Modelled from the spec: the typed getters of the external store
(get-string, get-int, get-bool). What a key resolves to depends on the flag
registry, the store and the process environment; the core only reads it. -/
structure Resolution where
  GetString : FlagSet → Viper → String → String
  GetInt : FlagSet → Viper → String → Int
  GetBool : FlagSet → Viper → String → Bool

/-- What `BuildConfig` takes from outside the program: the config-file read
(its error is returned next to the store), command-line parsing (which can
stop the process) and value resolution. -/
structure World where
  ReadInConfig : Viper → Viper × Option String
  Parse : FlagSet → Except Fatal FlagSet
  resolution : Resolution

/-! ## Registration -/

def addBool (fs : FlagSet) (cfg : Viper) (e : ConfigEntry) : Except Fatal (FlagSet × Viper) :=
  match fs.declare e.FlagName (.bool false) e.Help with
  | .error f => .error f
  | .ok fs1 =>
    match e.GetBool with
    | .error f => .error f
    | .ok b => .ok (fs1, cfg.SetDefault e.GetName (.bool b))

def addString (fs : FlagSet) (cfg : Viper) (e : ConfigEntry) : Except Fatal (FlagSet × Viper) :=
  match fs.declare e.FlagName (.str "") e.Help with
  | .error f => .error f
  | .ok fs1 =>
    match e.GetString with
    | .error f => .error f
    | .ok s => .ok (fs1, cfg.SetDefault e.GetName (.str s))

def addInt (fs : FlagSet) (cfg : Viper) (e : ConfigEntry) : Except Fatal (FlagSet × Viper) :=
  match fs.declare e.FlagName (.int 0) e.Help with
  | .error f => .error f
  | .ok fs1 =>
    match e.GetInt with
    | .error f => .error f
    | .ok i => .ok (fs1, cfg.SetDefault e.GetName (.int i))

/-- The last statement of the loop body of `addConfigChildren`:
`cfg.BindPFlag(e.GetName(), pflag.Lookup(e.FlagName()))`, its error dropped. -/
def bindEntry (fs : FlagSet) (cfg : Viper) (e : ConfigEntry) : Viper :=
  (cfg.BindPFlag e.GetName (fs.Lookup e.FlagName)).1

mutual
/-- The function `addConfigChildren`: the loop over `config`. Returns the flag
registry, the store and the tree with its stamped prefixes. -/
def addConfigChildren (fs : FlagSet) (cfg : Viper) (pfx : String) :
    List ConfigEntry → Except Fatal (FlagSet × Viper × List ConfigEntry)
  | [] => .ok (fs, cfg, [])
  | e :: rest =>
    match addConfigEntry fs cfg pfx e with
    | .error f => .error f
    | .ok (fs1, cfg1, e1) =>
      match addConfigChildren fs1 cfg1 pfx rest with
      | .error f => .error f
      | .ok (fs2, cfg2, rest1) => .ok (fs2, cfg2, e1 :: rest1)
/-- The loop body of `addConfigChildren` for one entry. -/
def addConfigEntry (fs : FlagSet) (cfg : Viper) (pfx : String) :
    ConfigEntry → Except Fatal (FlagSet × Viper × ConfigEntry)
  | .mk t n h r d c _ =>
    let e := ConfigEntry.mk t n h r d c pfx
    if e.IsBool then
      match addBool fs cfg e with
      | .error f => .error f
      | .ok (fs1, cfg1) => .ok (fs1, bindEntry fs1 cfg1 e, e)
    else if e.IsInt then
      match addInt fs cfg e with
      | .error f => .error f
      | .ok (fs1, cfg1) => .ok (fs1, bindEntry fs1 cfg1 e, e)
    else if e.IsString then
      match addString fs cfg e with
      | .error f => .error f
      | .ok (fs1, cfg1) => .ok (fs1, bindEntry fs1 cfg1 e, e)
    else if e.IsParent then
      match addConfigChildren fs cfg e.GetName c with
      | .error f => .error f
      | .ok (fs1, cfg1, c1) =>
        let e1 := ConfigEntry.mk t n h r d c1 pfx
        .ok (fs1, bindEntry fs1 cfg1 e1, e1)
    else
      .error (.unknownType (e.GetName ++ " is of unknown type: " ++ e.Typ))
end

/-! ## Validation -/

mutual
/-- The function `verifyRequiredConfigs`: the names appended by the loop. -/
def verifyRequiredConfigs (R : Resolution) (fs : FlagSet) (cfg : Viper) (pfx : String) :
    List ConfigEntry → List String
  | [] => []
  | e :: rest =>
    verifyRequiredEntry R fs cfg pfx e ++ verifyRequiredConfigs R fs cfg pfx rest
/-- What one iteration of the loop of `verifyRequiredConfigs` appends. -/
def verifyRequiredEntry (R : Resolution) (fs : FlagSet) (cfg : Viper) (pfx : String) :
    ConfigEntry → List String
  | .mk t n h r d c p =>
    let e := ConfigEntry.mk t n h r d c p
    if e.IsParent then
      verifyRequiredConfigs R fs cfg e.GetName c
    else if e.Required then
      if e.IsString && R.GetString fs cfg e.GetName == "" then [e.GetName]
      else if e.IsInt && R.GetInt fs cfg e.GetName == 0 then [e.GetName]
      else []
    else []
end

/-! ## Build orchestration -/

/-- What `BuildConfig` leaves behind when it returns: its two results `cfg`
and `err`, the flag registry and the schema tree. -/
structure BuildResult where
  cfg : Viper
  err : Option String
  CommandLine : FlagSet
  config : List ConfigEntry

def BuildConfig (W : World) (CommandLine : FlagSet) (cfg : Option Viper)
    (config : List ConfigEntry) : Except Fatal BuildResult :=
  let cfg0 := match cfg with
    | none => Viper.New
    | some c => c
  let cfg1 := cfg0.SetEnvKeyReplacer "." "_"
  let cfg2 := cfg1.AutomaticEnv
  let cfg3 := cfg2.SetConfigName "config"
  let cfg4 := cfg3.AddConfigPath "/etc/hackbot2000"
  let cfg5 := cfg4.AddConfigPath "."
  let cfg6 := (W.ReadInConfig cfg5).1
  match addConfigChildren CommandLine cfg6 "" config with
  | .error f => .error f
  | .ok (fs1, cfg7, config1) =>
    match W.Parse fs1 with
    | .error f => .error f
    | .ok fs2 =>
      let missingValues := verifyRequiredConfigs W.resolution fs2 cfg7 "" config1
      let err := if missingValues.length > 0
        then some ("You must set these config itmes: " ++ sprintV missingValues)
        else none
      .ok { cfg := cfg7, err := err, CommandLine := fs2, config := config1 }

/-! ## Specification-side vocabulary -/

mutual
/-- The entries a traversal visits, in visiting order: the entries of the list in
declared order, a parent entry being followed by the visited entries of its
`Children`. -/
def reached : List ConfigEntry → List ConfigEntry
  | [] => []
  | e :: rest => reachedFrom e ++ reached rest
/-- The entries visited from one entry. -/
def reachedFrom : ConfigEntry → List ConfigEntry
  | .mk t n h r d c p =>
    let e := ConfigEntry.mk t n h r d c p
    if e.IsParent then e :: reached c else [e]
end

mutual
/-- The visited entries, each with the names of the parent entries it is reached
through, outermost first. -/
def reachedPaths : List ConfigEntry → List (List String × ConfigEntry)
  | [] => []
  | e :: rest => reachedPathsFrom e ++ reachedPaths rest
/-- The visited entries below and including one entry, with their ancestors. -/
def reachedPathsFrom : ConfigEntry → List (List String × ConfigEntry)
  | .mk t n h r d c p =>
    let e := ConfigEntry.mk t n h r d c p
    if e.IsParent then ([], e) :: (reachedPaths c).map (fun x => (n :: x.1, x.2))
    else [([], e)]
end

mutual
/-- The tree with the prefixes the registration traversal writes from root
prefix `p`: every entry of the list gets `p`, the `Children` of a parent entry
get the parent's fully-qualified name. -/
def stamp (p : String) : List ConfigEntry → List ConfigEntry
  | [] => []
  | e :: rest => stampEntry p e :: stamp p rest
/-- One entry with the prefixes written below it. -/
def stampEntry (p : String) : ConfigEntry → ConfigEntry
  | .mk t n h r d c _ =>
    let e := ConfigEntry.mk t n h r d c p
    if e.IsParent then ConfigEntry.mk t n h r d (stamp e.GetName c) p else e
end

/-- An entry of one of the three scalar types. -/
def ConfigEntry.IsScalar (ce : ConfigEntry) : Bool :=
  ce.IsBool || ce.IsInt || ce.IsString

/-- An entry whose `Type` is one of the four known tags. -/
def ConfigEntry.IsKnown (ce : ConfigEntry) : Bool :=
  ce.IsScalar || ce.IsParent

/-- The visited scalar entries, in registration order. -/
def scalars (es : List ConfigEntry) : List ConfigEntry :=
  (reached es).filter ConfigEntry.IsScalar

/-- The condition under which validation reports an entry: `Required`, and of
string type resolving to the empty string or of int type resolving to 0. -/
def isMissing (R : Resolution) (fs : FlagSet) (cfg : Viper) (e : ConfigEntry) : Bool :=
  e.Required &&
    ((e.IsString && R.GetString fs cfg e.GetName == "") ||
     (e.IsInt && R.GetInt fs cfg e.GetName == 0))

/-- The missing list as the specification words it: the fully-qualified names of
the visited entries that satisfy `isMissing`, in visiting order. -/
def missingSpec (R : Resolution) (fs : FlagSet) (cfg : Viper) (es : List ConfigEntry) :
    List String :=
  ((reached es).filter (isMissing R fs cfg)).map ConfigEntry.GetName

/-- The string `n1 + "." + ... + "." + nk + "." + n`. -/
def dottedPath (ns : List String) (n : String) : String :=
  ns.foldr (fun a acc => a ++ "." ++ acc) n

/-- The name `s` qualified by the prefix `p`, as `GetName` forms it. -/
def qualify (p s : String) : String :=
  if p = "" then s else p ++ "." ++ s

/-- The string `s` occurs inside `t`. -/
def Contains (t s : String) : Prop :=
  ∃ pre post : String, t = pre ++ s ++ post

/-- The sample schema of `main`. -/
def sampleSchema : List ConfigEntry :=
  [ .mk IntType "port" "Port on which to listen for requests" true (.int 80) [] "",
    .mk ParentType "slack" "" false .nil
      [ .mk StringType "token" "Token to use when dealing with slack" true (.str "") [] "" ] "",
    .mk ParentType "db" "" false .nil
      [ .mk IntType "port" "Port on which to connect to the db" true (.int 3306) [] "",
        .mk StringType "host" "Hostname to connect to in the db" true (.str "localhost") [] "",
        .mk StringType "username" "Username to use when connecting to the DB" true (.str "") [] "",
        .mk StringType "password" "Password to use when connecting to the DB" true (.str "") [] "",
        .mk StringType "name" "Name of database to use" true (.str "") [] "" ] "" ]

/-- A store whose every key resolves to the zero value. -/
def zeroResolution : Resolution :=
  { GetString := fun _ _ _ => "", GetInt := fun _ _ _ => 0, GetBool := fun _ _ _ => false }

/-- A world without config file and without command-line arguments. -/
def quietWorld (R : Resolution) : World :=
  { ReadInConfig := fun cfg => (cfg, some "Config File \"config\" Not Found"),
    Parse := fun fs => .ok fs,
    resolution := R }

/-- The tree of the validation-order scenario: `A` (required string), the group
`G` with `B` (required string) and `C` (optional string). -/
def orderTree : List ConfigEntry :=
  [ .mk StringType "A" "" true (.str "") [] "",
    .mk ParentType "G" "" false .nil
      [ .mk StringType "B" "" true (.str "") [] "",
        .mk StringType "C" "" false (.str "") [] "" ] "" ]

/-- Whether a value has the dynamic type named by a scalar type tag. -/
def Value.hasType : Value → String → Bool
  | .bool _, t => t == BoolType
  | .int _, t => t == IntType
  | .str _, t => t == StringType
  | _, _ => false

/-- The zero value a scalar entry's flag is declared with. -/
def zeroOf (e : ConfigEntry) : Value :=
  if e.IsBool then .bool false else if e.IsInt then .int 0 else .str ""

/-- The flag registration declares for a scalar entry. -/
def flagOf (e : ConfigEntry) : Flag :=
  ⟨e.FlagName, e.Help, zeroOf e, zeroOf e, false⟩

/-- What registration does to the flag registry and to the store's defaults
while it visits the entries `l` (in visiting order): one flag and one default
per scalar entry; every visited entry has a known type and every scalar one a
`Default` of its declared type. -/
def Effect (fs : FlagSet) (cfg : Viper) (fs1 : FlagSet) (cfg1 : Viper)
    (l : List ConfigEntry) : Prop :=
  fs1 = fs ++ (l.filter ConfigEntry.IsScalar).map flagOf ∧
  cfg1.defaults
    = ((l.filter ConfigEntry.IsScalar).map (fun e => (e.GetName, e.Default))).reverse
      ++ cfg.defaults ∧
  (∀ e ∈ l, e.IsKnown = true) ∧
  (∀ e ∈ l, e.IsScalar = true → e.Default.hasType e.Typ = true)

/-- A store that resolves every key from the registered defaults alone: no
flag, environment variable or config file supplies a value. -/
def defaultsResolution : Resolution :=
  { GetString := fun _ cfg k =>
      match cfg.defaultOf k with
      | some (.str s) => s
      | _ => "",
    GetInt := fun _ cfg k =>
      match cfg.defaultOf k with
      | some (.int i) => i
      | _ => 0,
    GetBool := fun _ cfg k =>
      match cfg.defaultOf k with
      | some (.bool b) => b
      | _ => false }

/-- The result of an operation that is known to return, `d` otherwise. -/
def returned {α : Type} (x : Except Fatal α) (d : α) : α :=
  match x with
  | .ok a => a
  | .error _ => d

/-- The order tree after registration from an empty registry and a new store. -/
def orderRegistered : FlagSet × Viper × List ConfigEntry :=
  returned (addConfigChildren [] Viper.New "" orderTree) ([], Viper.New, [])

/-- The sample schema after registration from an empty registry and a new store. -/
def sampleRegistered : FlagSet × Viper × List ConfigEntry :=
  returned (addConfigChildren [] Viper.New "" sampleSchema) ([], Viper.New, [])

/-- A world without config file and without command-line arguments in which
every string resolves to `"set"` and every int to `1`. -/
def suppliedWorld : World :=
  quietWorld { GetString := fun _ _ _ => "set", GetInt := fun _ _ _ => 1,
               GetBool := fun _ _ _ => true }

/-- What `BuildConfig` returns where it is known to return. -/
def built (x : Except Fatal BuildResult) : BuildResult :=
  returned x { cfg := Viper.New, err := none, CommandLine := [], config := [] }

/-- A schema with an entry of the unknown type `"float"` inside a group. -/
def floatSchema : List ConfigEntry :=
  [ .mk IntType "port" "" true (.int 80) [] "",
    .mk ParentType "net" "" false .nil
      [ .mk "float" "ratio" "" false (.other "float64") [] "" ] "" ]

/-- A schema whose scalar entries are all of bool type, each marked required. -/
def boolSchema : List ConfigEntry :=
  [ .mk BoolType "verbose" "" true (.bool false) [] "",
    .mk ParentType "log" "" false .nil
      [ .mk BoolType "color" "" true (.bool true) [] "log" ] "" ]

/-- What a returning registration does to the flag registry while it visits the
entries `l`: it appends one flag per scalar entry, in visiting order; the name
of each was not declared before the call, and afterwards looking it up gives
the flag of that entry. -/
def Declared (fs : FlagSet) (_cfg : Viper) (fs1 : FlagSet) (_cfg1 : Viper)
    (l : List ConfigEntry) : Prop :=
  fs1 = fs ++ (l.filter ConfigEntry.IsScalar).map flagOf ∧
  (∀ e ∈ l, e.IsScalar = true → fs.Lookup e.FlagName = none) ∧
  (∀ e ∈ l, e.IsScalar = true → fs1.Lookup e.FlagName = some (flagOf e))

/-- What a returning registration does to the store besides its defaults while
it visits the entries `l`: the registry only grows; the bindings are the old
ones preceded by bindings of a visited entry's `GetName()` to the flag named
by its `FlagName()`, which is declared; every scalar entry's key is bound to
its flag; the other settings of the store are kept. -/
def Bound (fs : FlagSet) (cfg : Viper) (fs1 : FlagSet) (cfg1 : Viper)
    (l : List ConfigEntry) : Prop :=
  (∃ ext, fs1 = fs ++ ext) ∧
  (∃ bs, cfg1.pflags = bs ++ cfg.pflags ∧
    ∀ b ∈ bs, ∃ e ∈ l, b = (e.GetName, e.FlagName) ∧ (fs1.Lookup e.FlagName).isSome = true) ∧
  (∀ e ∈ l, e.IsScalar = true → cfg1.boundFlag e.GetName = some e.FlagName) ∧
  cfg1.envKeyReplacer = cfg.envKeyReplacer ∧
  cfg1.automaticEnvApplied = cfg.automaticEnvApplied ∧
  cfg1.configName = cfg.configName ∧
  cfg1.configPaths = cfg.configPaths ∧
  cfg1.config = cfg.config

mutual
/-- The tree with every prefix reset to the empty string: what is left is each
node's `Type`, `Name`, `Help`, `Required`, `Default` and its `Children` in
order. -/
def forgetPrefixes : List ConfigEntry → List ConfigEntry
  | [] => []
  | e :: rest => forgetPrefix e :: forgetPrefixes rest
/-- One node with its prefix and those below it reset. -/
def forgetPrefix : ConfigEntry → ConfigEntry
  | .mk t n h r d c _ => ConfigEntry.mk t n h r d (forgetPrefixes c) ""
end

/-- The settings `BuildConfig` applies to the store before it reads the config
file. -/
def configured (c : Viper) : Viper :=
  ((((c.SetEnvKeyReplacer "." "_").AutomaticEnv).SetConfigName "config").AddConfigPath
    "/etc/hackbot2000").AddConfigPath "."

/-- A string without the character `-`. -/
def noHyphen (s : String) : Prop := '-' ∉ s.data

/-- The number of visited entries that are `Required` and of string or int type. -/
def requiredCount (es : List ConfigEntry) : Nat :=
  ((reached es).filter (fun e => e.Required && (e.IsString || e.IsInt))).length

/-- A schema whose top-level scalar `a-b` and nested scalar `a.b` share the flag
name `a-b`. -/
def hyphenSchema : List ConfigEntry :=
  [ .mk StringType "a-b" "" false (.str "") [] "",
    .mk ParentType "a" "" false .nil
      [ .mk StringType "b" "" false (.str "") [] "" ] "" ]

/-- A schema in which the flag name of the nested group `a.b` is that of the
top-level scalar `a-b`. -/
def hyphenGroupSchema : List ConfigEntry :=
  [ .mk StringType "a-b" "" false (.str "") [] "",
    .mk ParentType "a" "" false .nil
      [ .mk ParentType "b" "" false .nil [] "" ] "" ]

/-- The registration of `hyphenGroupSchema` from an empty registry and a new store. -/
def hyphenGroupRegistered : FlagSet × Viper × List ConfigEntry :=
  returned (addConfigChildren [] Viper.New "" hyphenGroupSchema) ([], Viper.New, [])

/-- A registry in which some other part of the process declared a flag `db`. -/
def dbFlagSet : FlagSet :=
  [⟨"db", "database url", .str "", .str "", false⟩]

/-- The registration of the sample schema on top of `dbFlagSet`. -/
def sampleOnDbRegistered : FlagSet × Viper × List ConfigEntry :=
  returned (addConfigChildren dbFlagSet Viper.New "" sampleSchema) ([], Viper.New, [])

/-- A schema of groups only. -/
def groupsSchema : List ConfigEntry :=
  [ .mk ParentType "db" "" false .nil [ .mk ParentType "pool" "" false .nil [] "" ] "" ]

/-- The registration of `groupsSchema` from an empty registry and a new store. -/
def groupsRegistered : FlagSet × Viper × List ConfigEntry :=
  returned (addConfigChildren [] Viper.New "" groupsSchema) ([], Viper.New, [])

/-- An entry declared of int type whose `Default` holds a string. -/
def mistypedEntry : ConfigEntry :=
  .mk IntType "port" "" true (.str "8080") [] ""

/-- A store given to `BuildConfig` that already holds a default and a binding. -/
def givenStore : Viper :=
  { Viper.New with defaults := [("region", .str "eu")], pflags := [("region", "region")] }

/-- The entry `db.port` of the sample schema as registration leaves it. -/
def dbPortEntry : ConfigEntry :=
  .mk IntType "port" "Port on which to connect to the db" true (.int 3306) [] "db"

/-- The group `slack` of the sample schema as registration leaves it. -/
def slackEntry : ConfigEntry :=
  .mk ParentType "slack" "" false .nil
    [ .mk StringType "token" "Token to use when dealing with slack" true (.str "") [] "slack" ] ""

/-- The group `a.b` of `hyphenGroupSchema` as registration leaves it. -/
def hyphenGroupEntry : ConfigEntry :=
  .mk ParentType "b" "" false .nil [] "a"

/-- An entry of unknown type, marked required, with a required child attached. -/
def floatEntry : ConfigEntry :=
  .mk "float" "ratio" "" true (.other "float64")
    [ .mk StringType "unit" "" true (.str "") [] "" ] ""

/-! ## Basic facts -/

theorem isParent_not_scalar (e : ConfigEntry) (h : e.IsParent = true) :
    e.IsBool = false ∧ e.IsInt = false ∧ e.IsString = false := by
  simp only [ConfigEntry.IsParent, ConfigEntry.IsBool, ConfigEntry.IsInt, ConfigEntry.IsString,
    ParentType, BoolType, IntType, StringType, beq_iff_eq] at *
  rw [h]
  decide

theorem replaceScan_dot (l : List Char) :
    replaceScan ['.'] ['-'] 0 l = l.map (fun c => if c = '.' then '-' else c) := by
  induction l with
  | nil => rfl
  | cons c cs ih =>
    by_cases hc : c = '.'
    · subst hc
      simp [replaceScan, List.isPrefixOf, ih]
    · simp [replaceScan, List.isPrefixOf, ih, hc]
      intro h
      exact absurd h.symm hc

theorem flagName_data (e : ConfigEntry) :
    e.FlagName.data = e.GetName.data.map (fun c => if c = '.' then '-' else c) := by
  have h : stringsReplaceAll e.GetName "." "-"
      = ⟨replaceScan ['.'] ['-'] 0 e.GetName.data⟩ := rfl
  rw [ConfigEntry.FlagName, h, replaceScan_dot]

mutual
theorem verifyRequiredConfigs_eq (R : Resolution) (fs : FlagSet) (cfg : Viper) :
    ∀ (p : String) (es : List ConfigEntry),
      verifyRequiredConfigs R fs cfg p es
        = ((reached es).filter (isMissing R fs cfg)).map ConfigEntry.GetName
  | _, [] => by simp [verifyRequiredConfigs, reached]
  | p, e :: rest => by
    rw [verifyRequiredConfigs, reached, List.filter_append, List.map_append,
      verifyRequiredEntry_eq R fs cfg p e, verifyRequiredConfigs_eq R fs cfg p rest]
theorem verifyRequiredEntry_eq (R : Resolution) (fs : FlagSet) (cfg : Viper) :
    ∀ (p : String) (e : ConfigEntry),
      verifyRequiredEntry R fs cfg p e
        = ((reachedFrom e).filter (isMissing R fs cfg)).map ConfigEntry.GetName
  | p, .mk t n h r d c q => by
    rw [verifyRequiredEntry, reachedFrom]
    by_cases hp : (ConfigEntry.mk t n h r d c q).IsParent = true
    · obtain ⟨_, hi, hs⟩ := isParent_not_scalar _ hp
      have hm : isMissing R fs cfg (ConfigEntry.mk t n h r d c q) = false := by
        simp [isMissing, hi, hs]
      simp only [hp, if_true, List.filter_cons, hm]
      exact verifyRequiredConfigs_eq R fs cfg _ c
    · simp only [hp, Bool.false_eq_true, if_false, List.filter_cons, List.filter_nil]
      by_cases hr : (ConfigEntry.mk t n h r d c q).Required = true
      · by_cases h1 : ((ConfigEntry.mk t n h r d c q).IsString
            && R.GetString fs cfg (ConfigEntry.mk t n h r d c q).GetName == "") = true
        · simp [isMissing, hr, h1]
        · by_cases h2 : ((ConfigEntry.mk t n h r d c q).IsInt
              && R.GetInt fs cfg (ConfigEntry.mk t n h r d c q).GetName == 0) = true
          · simp [isMissing, hr, h1, h2]
          · simp [isMissing, hr, h1, h2]
      · simp [isMissing, hr]
end

theorem Effect.nil (fs : FlagSet) (cfg : Viper) : Effect fs cfg fs cfg [] := by
  simp [Effect]

theorem Effect.append {fs fs1 fs2 : FlagSet} {cfg cfg1 cfg2 : Viper} {l1 l2 : List ConfigEntry}
    (h1 : Effect fs cfg fs1 cfg1 l1) (h2 : Effect fs1 cfg1 fs2 cfg2 l2) :
    Effect fs cfg fs2 cfg2 (l1 ++ l2) := by
  obtain ⟨a1, b1, c1, d1⟩ := h1
  obtain ⟨a2, b2, c2, d2⟩ := h2
  refine ⟨?_, ?_, ?_, ?_⟩
  · rw [a2, a1, List.filter_append, List.map_append, List.append_assoc]
  · rw [b2, b1, List.filter_append, List.map_append, List.reverse_append, List.append_assoc]
  · intro e he
    rcases List.mem_append.1 he with h | h
    · exact c1 e h
    · exact c2 e h
  · intro e he
    rcases List.mem_append.1 he with h | h
    · exact d1 e h
    · exact d2 e h

theorem bindEntry_defaults (fs : FlagSet) (cfg : Viper) (e : ConfigEntry) :
    (bindEntry fs cfg e).defaults = cfg.defaults := by
  unfold bindEntry Viper.BindPFlag
  cases fs.Lookup e.FlagName <;> rfl

theorem declare_ok {fs fs1 : FlagSet} {name usage : String} {zero : Value}
    (h : fs.declare name zero usage = .ok fs1) :
    fs.Lookup name = none ∧ fs1 = fs ++ [⟨name, usage, zero, zero, false⟩] := by
  unfold FlagSet.declare at h
  cases hl : fs.Lookup name with
  | none =>
    simp [hl] at h
    exact ⟨rfl, h.symm⟩
  | some f => simp [hl] at h

theorem Effect.scalar (fs : FlagSet) (cfg : Viper) (e : ConfigEntry)
    (hs : e.IsScalar = true) (ht : e.Default.hasType e.Typ = true) :
    Effect fs cfg (fs ++ [flagOf e]) (cfg.SetDefault e.GetName e.Default) [e] := by
  refine ⟨?_, ?_, ?_, ?_⟩
  · simp [List.filter_cons, hs]
  · simp [List.filter_cons, hs, Viper.SetDefault]
  · intro x hx
    rw [List.mem_singleton.1 hx]
    simp [ConfigEntry.IsKnown, hs]
  · intro x hx _
    rw [List.mem_singleton.1 hx]
    exact ht

theorem addBool_ok {fs fs1 : FlagSet} {cfg cfg1 : Viper} {e : ConfigEntry}
    (hb : e.IsBool = true) (h : addBool fs cfg e = .ok (fs1, cfg1)) :
    Effect fs cfg fs1 cfg1 [e] := by
  unfold addBool at h
  cases hd : fs.declare e.FlagName (.bool false) e.Help with
  | error f => simp [hd] at h
  | ok fs2 =>
    obtain ⟨_, hfs⟩ := declare_ok hd
    have hsc : e.IsScalar = true := by simp [ConfigEntry.IsScalar, hb]
    have hty : e.Typ = BoolType := by simpa [ConfigEntry.IsBool] using hb
    have hz : flagOf e = ⟨e.FlagName, e.Help, .bool false, .bool false, false⟩ := by
      simp [flagOf, zeroOf, hb]
    cases hdf : e.Default <;> simp [hd, ConfigEntry.GetBool, hdf] at h
    obtain ⟨h1, h2⟩ := h
    have := Effect.scalar fs cfg e hsc (by simp [hdf, Value.hasType, hty])
    rw [hz, ← hfs, h1, hdf, h2] at this
    exact this

theorem addInt_ok {fs fs1 : FlagSet} {cfg cfg1 : Viper} {e : ConfigEntry}
    (hb : e.IsBool = false) (hi : e.IsInt = true) (h : addInt fs cfg e = .ok (fs1, cfg1)) :
    Effect fs cfg fs1 cfg1 [e] := by
  unfold addInt at h
  cases hd : fs.declare e.FlagName (.int 0) e.Help with
  | error f => simp [hd] at h
  | ok fs2 =>
    obtain ⟨_, hfs⟩ := declare_ok hd
    have hsc : e.IsScalar = true := by simp [ConfigEntry.IsScalar, hi]
    have hty : e.Typ = IntType := by simpa [ConfigEntry.IsInt] using hi
    have hz : flagOf e = ⟨e.FlagName, e.Help, .int 0, .int 0, false⟩ := by
      simp [flagOf, zeroOf, hb, hi]
    cases hdf : e.Default <;> simp [hd, ConfigEntry.GetInt, hdf] at h
    obtain ⟨h1, h2⟩ := h
    have := Effect.scalar fs cfg e hsc (by simp [hdf, Value.hasType, hty])
    rw [hz, ← hfs, h1, hdf, h2] at this
    exact this

theorem addString_ok {fs fs1 : FlagSet} {cfg cfg1 : Viper} {e : ConfigEntry}
    (hb : e.IsBool = false) (hi : e.IsInt = false) (hs : e.IsString = true)
    (h : addString fs cfg e = .ok (fs1, cfg1)) :
    Effect fs cfg fs1 cfg1 [e] := by
  unfold addString at h
  cases hd : fs.declare e.FlagName (.str "") e.Help with
  | error f => simp [hd] at h
  | ok fs2 =>
    obtain ⟨_, hfs⟩ := declare_ok hd
    have hsc : e.IsScalar = true := by simp [ConfigEntry.IsScalar, hs]
    have hty : e.Typ = StringType := by simpa [ConfigEntry.IsString] using hs
    have hz : flagOf e = ⟨e.FlagName, e.Help, .str "", .str "", false⟩ := by
      simp [flagOf, zeroOf, hb, hi]
    cases hdf : e.Default <;> simp [hd, ConfigEntry.GetString, hdf] at h
    obtain ⟨h1, h2⟩ := h
    have := Effect.scalar fs cfg e hsc (by simp [hdf, Value.hasType, hty])
    rw [hz, ← hfs, h1, hdf, h2] at this
    exact this

theorem Effect.bind {fs fs1 : FlagSet} {cfg cfg1 : Viper} {l : List ConfigEntry}
    (h : Effect fs cfg fs1 cfg1 l) (fs2 : FlagSet) (e : ConfigEntry) :
    Effect fs cfg fs1 (bindEntry fs2 cfg1 e) l := by
  obtain ⟨a, b, c, d⟩ := h
  exact ⟨a, by rw [bindEntry_defaults, b], c, d⟩

theorem Effect.parent {fs fs1 : FlagSet} {cfg cfg1 : Viper} {l : List ConfigEntry}
    (h : Effect fs cfg fs1 cfg1 l) (e : ConfigEntry) (hp : e.IsParent = true) :
    Effect fs cfg fs1 cfg1 (e :: l) := by
  obtain ⟨hb, hi, hs⟩ := isParent_not_scalar e hp
  have hsc : e.IsScalar = false := by simp [ConfigEntry.IsScalar, hb, hi, hs]
  obtain ⟨a, b, c, d⟩ := h
  refine ⟨?_, ?_, ?_, ?_⟩
  · simpa [List.filter_cons, hsc] using a
  · simpa [List.filter_cons, hsc] using b
  · intro x hx
    rcases List.mem_cons.1 hx with h | h
    · subst h
      simp [ConfigEntry.IsKnown, hp]
    · exact c x h
  · intro x hx
    rcases List.mem_cons.1 hx with h | h
    · subst h
      intro hx2
      simp [hsc] at hx2
    · exact d x h

theorem reachedFrom_leaf (e : ConfigEntry) (hp : e.IsParent = false) : reachedFrom e = [e] := by
  cases e with
  | mk t n h r d c q => simp [reachedFrom, hp]

theorem stampEntry_leaf (p : String) (t n h : String) (r : Bool) (d : Value)
    (c : List ConfigEntry) (q : String)
    (hp : (ConfigEntry.mk t n h r d c p).IsParent = false) :
    stampEntry p (ConfigEntry.mk t n h r d c q) = ConfigEntry.mk t n h r d c p := by
  simp [stampEntry, hp]

theorem isParent_of_not_scalar {e : ConfigEntry} (hb : e.IsBool = true ∨ e.IsInt = true
    ∨ e.IsString = true) : e.IsParent = false := by
  cases hp : e.IsParent with
  | false => rfl
  | true =>
    obtain ⟨a, b, c⟩ := isParent_not_scalar e hp
    rcases hb with h | h | h <;> simp_all

mutual
theorem addConfigChildren_ok :
    ∀ (es : List ConfigEntry) (fs : FlagSet) (cfg : Viper) (p : String)
      (fs1 : FlagSet) (cfg1 : Viper) (es1 : List ConfigEntry),
      addConfigChildren fs cfg p es = .ok (fs1, cfg1, es1) →
      es1 = stamp p es ∧ Effect fs cfg fs1 cfg1 (reached es1)
  | [], fs, cfg, p, fs1, cfg1, es1 => by
    intro h
    simp only [addConfigChildren, Except.ok.injEq, Prod.mk.injEq] at h
    obtain ⟨h1, h2, h3⟩ := h
    subst h1 h2 h3
    exact ⟨by simp [stamp], by simpa [reached] using Effect.nil fs cfg⟩
  | e :: rest, fs, cfg, p, fs1, cfg1, es1 => by
    intro h
    rw [addConfigChildren] at h
    cases he : addConfigEntry fs cfg p e with
    | error f => simp [he] at h
    | ok ra =>
      obtain ⟨fsa, cfga, ea⟩ := ra
      cases hr : addConfigChildren fsa cfga p rest with
      | error f => simp [he, hr] at h
      | ok rb =>
        obtain ⟨fsb, cfgb, restb⟩ := rb
        simp only [he, hr, Except.ok.injEq, Prod.mk.injEq] at h
        obtain ⟨h1, h2, h3⟩ := h
        subst h1 h2 h3
        obtain ⟨ha1, ha2⟩ := addConfigEntry_ok e fs cfg p fsa cfga ea he
        obtain ⟨hb1, hb2⟩ := addConfigChildren_ok rest fsa cfga p fsb cfgb restb hr
        refine ⟨by rw [stamp, ha1, hb1], ?_⟩
        rw [reached]
        exact Effect.append ha2 hb2
theorem addConfigEntry_ok :
    ∀ (e : ConfigEntry) (fs : FlagSet) (cfg : Viper) (p : String)
      (fs1 : FlagSet) (cfg1 : Viper) (e1 : ConfigEntry),
      addConfigEntry fs cfg p e = .ok (fs1, cfg1, e1) →
      e1 = stampEntry p e ∧ Effect fs cfg fs1 cfg1 (reachedFrom e1)
  | .mk t n hh r d c q, fs, cfg, p, fs1, cfg1, e1 => by
    intro h
    rw [addConfigEntry] at h
    by_cases hb : (ConfigEntry.mk t n hh r d c p).IsBool = true
    · simp only [hb, if_true] at h
      have hp := isParent_of_not_scalar (Or.inl hb)
      cases ha : addBool fs cfg (ConfigEntry.mk t n hh r d c p) with
      | error f => simp [ha] at h
      | ok ra =>
        obtain ⟨fsa, cfga⟩ := ra
        simp only [ha, Except.ok.injEq, Prod.mk.injEq] at h
        obtain ⟨h1, h2, h3⟩ := h
        subst h1 h2 h3
        rw [reachedFrom_leaf _ hp, stampEntry_leaf _ _ _ _ _ _ _ _ hp]
        exact ⟨rfl, (addBool_ok hb ha).bind _ _⟩
    · have hb : (ConfigEntry.mk t n hh r d c p).IsBool = false := by simpa using hb
      simp only [hb, Bool.false_eq_true, if_false] at h
      by_cases hi : (ConfigEntry.mk t n hh r d c p).IsInt = true
      · simp only [hi, if_true] at h
        have hp := isParent_of_not_scalar (Or.inr (Or.inl hi))
        cases ha : addInt fs cfg (ConfigEntry.mk t n hh r d c p) with
        | error f => simp [ha] at h
        | ok ra =>
          obtain ⟨fsa, cfga⟩ := ra
          simp only [ha, Except.ok.injEq, Prod.mk.injEq] at h
          obtain ⟨h1, h2, h3⟩ := h
          subst h1 h2 h3
          rw [reachedFrom_leaf _ hp, stampEntry_leaf _ _ _ _ _ _ _ _ hp]
          exact ⟨rfl, (addInt_ok hb hi ha).bind _ _⟩
      · have hi : (ConfigEntry.mk t n hh r d c p).IsInt = false := by simpa using hi
        simp only [hi, Bool.false_eq_true, if_false] at h
        by_cases hs : (ConfigEntry.mk t n hh r d c p).IsString = true
        · simp only [hs, if_true] at h
          have hp := isParent_of_not_scalar (Or.inr (Or.inr hs))
          cases ha : addString fs cfg (ConfigEntry.mk t n hh r d c p) with
          | error f => simp [ha] at h
          | ok ra =>
            obtain ⟨fsa, cfga⟩ := ra
            simp only [ha, Except.ok.injEq, Prod.mk.injEq] at h
            obtain ⟨h1, h2, h3⟩ := h
            subst h1 h2 h3
            rw [reachedFrom_leaf _ hp, stampEntry_leaf _ _ _ _ _ _ _ _ hp]
            exact ⟨rfl, (addString_ok hb hi hs ha).bind _ _⟩
        · have hs : (ConfigEntry.mk t n hh r d c p).IsString = false := by simpa using hs
          simp only [hs, Bool.false_eq_true, if_false] at h
          by_cases hp : (ConfigEntry.mk t n hh r d c p).IsParent = true
          · simp only [hp, if_true] at h
            cases ha : addConfigChildren fs cfg (ConfigEntry.mk t n hh r d c p).GetName c with
            | error f => simp [ha] at h
            | ok ra =>
              obtain ⟨fsa, cfga, ca⟩ := ra
              simp only [ha, Except.ok.injEq, Prod.mk.injEq] at h
              obtain ⟨h1, h2, h3⟩ := h
              subst h1 h2 h3
              obtain ⟨hc1, hc2⟩ := addConfigChildren_ok c fs cfg _ _ cfga ca ha
              have hp1 : (ConfigEntry.mk t n hh r d ca p).IsParent = true := hp
              refine ⟨?_, ?_⟩
              · rw [stampEntry]
                simp only [hp, if_true, hc1]
              · rw [reachedFrom]
                simp only [hp1, if_true]
                exact (hc2.parent _ hp1).bind _ _
          · simp [hp] at h
end

theorem getName_eq_qualify (e : ConfigEntry) : e.GetName = qualify e.pfx e.Name := rfl

theorem qualify_ne_empty (p s : String) (hs : s ≠ "") : qualify p s ≠ "" := by
  unfold qualify
  split
  · exact hs
  · intro h
    have := congrArg String.length h
    simp [String.length_append] at this
    exact absurd this.1.2 (by decide)

theorem qualify_qualify (p g x : String) (hg : g ≠ "") :
    qualify (qualify p g) x = qualify p (g ++ "." ++ x) := by
  have h1 := qualify_ne_empty p g hg
  rw [qualify, if_neg h1]
  unfold qualify
  split
  · rfl
  · simp [String.append_assoc]

theorem stampEntry_pfx (p : String) (e : ConfigEntry) : (stampEntry p e).pfx = p := by
  cases e with
  | mk t n h r d c q =>
    rw [stampEntry]
    split <;> rfl

theorem stampEntry_name (p : String) (e : ConfigEntry) : (stampEntry p e).Name = e.Name := by
  cases e with
  | mk t n h r d c q =>
    rw [stampEntry]
    split <;> rfl

theorem stamp_pfx (p : String) : ∀ (es : List ConfigEntry), ∀ e ∈ stamp p es, e.pfx = p
  | [] => by simp [stamp]
  | x :: rest => by
    intro e he
    rw [stamp] at he
    rcases List.mem_cons.1 he with h | h
    · rw [h]
      exact stampEntry_pfx p x
    · exact stamp_pfx p rest e h

mutual
theorem stamp_children :
    ∀ (es : List ConfigEntry) (p : String), ∀ g ∈ reached (stamp p es),
      g.IsParent = true → ∀ c ∈ g.Children, c.pfx = g.GetName
  | [], _ => by simp [stamp, reached]
  | x :: rest, p => by
    intro g hg
    rw [stamp, reached] at hg
    rcases List.mem_append.1 hg with h | h
    · exact stampEntry_children x p g h
    · exact stamp_children rest p g h
theorem stampEntry_children :
    ∀ (e : ConfigEntry) (p : String), ∀ g ∈ reachedFrom (stampEntry p e),
      g.IsParent = true → ∀ c ∈ g.Children, c.pfx = g.GetName
  | .mk t n h r d c q, p => by
    intro g hg hgp
    rw [stampEntry] at hg
    by_cases hp : (ConfigEntry.mk t n h r d c p).IsParent = true
    · simp only [hp, if_true] at hg
      have hp1 : (ConfigEntry.mk t n h r d
          (stamp (ConfigEntry.mk t n h r d c p).GetName c) p).IsParent = true := hp
      rw [reachedFrom] at hg
      simp only [hp1, if_true] at hg
      rcases List.mem_cons.1 hg with h1 | h1
      · subst h1
        intro x hx
        exact stamp_pfx _ c x hx
      · exact stamp_children c _ g h1 hgp
    · have hp : (ConfigEntry.mk t n h r d c p).IsParent = false := by simpa using hp
      simp only [hp, Bool.false_eq_true, if_false] at hg
      rw [reachedFrom_leaf _ hp, List.mem_singleton] at hg
      subst hg
      simp [hp] at hgp
end

mutual
theorem stamp_paths :
    ∀ (es : List ConfigEntry) (p : String), ∀ x ∈ reachedPaths (stamp p es),
      (∀ a ∈ x.1, a ≠ "") → x.2.GetName = qualify p (dottedPath x.1 x.2.Name)
  | [], _ => by simp [stamp, reachedPaths]
  | y :: rest, p => by
    intro x hx
    rw [stamp, reachedPaths] at hx
    rcases List.mem_append.1 hx with h | h
    · exact stampEntry_paths y p x h
    · exact stamp_paths rest p x h
theorem stampEntry_paths :
    ∀ (e : ConfigEntry) (p : String), ∀ x ∈ reachedPathsFrom (stampEntry p e),
      (∀ a ∈ x.1, a ≠ "") → x.2.GetName = qualify p (dottedPath x.1 x.2.Name)
  | .mk t n h r d c q, p => by
    intro x hx hne
    rw [stampEntry] at hx
    by_cases hp : (ConfigEntry.mk t n h r d c p).IsParent = true
    · simp only [hp, if_true] at hx
      have hp1 : (ConfigEntry.mk t n h r d
          (stamp (ConfigEntry.mk t n h r d c p).GetName c) p).IsParent = true := hp
      rw [reachedPathsFrom] at hx
      simp only [hp1, if_true] at hx
      rcases List.mem_cons.1 hx with h1 | h1
      · subst h1
        rfl
      · obtain ⟨z, hz, hzx⟩ := List.mem_map.1 h1
        subst hzx
        have hn : n ≠ "" := hne n (by simp)
        have hz2 : ∀ a ∈ z.1, a ≠ "" := fun a ha => hne a (by simp [ha])
        have ih := stamp_paths c _ z hz hz2
        show z.2.GetName = qualify p (dottedPath (n :: z.1) z.2.Name)
        rw [ih]
        exact qualify_qualify p n _ hn
    · have hp : (ConfigEntry.mk t n h r d c p).IsParent = false := by simpa using hp
      simp only [hp, Bool.false_eq_true, if_false] at hx
      rw [reachedPathsFrom] at hx
      simp only [hp, Bool.false_eq_true, if_false, List.mem_singleton] at hx
      subst hx
      rfl
end

theorem lookup_append_of_forall_ne {β : Type} (k : String) :
    ∀ (xs ys : List (String × β)), (∀ x ∈ xs, x.1 ≠ k) →
      List.lookup k (xs ++ ys) = List.lookup k ys
  | [], _, _ => rfl
  | x :: xs, ys, h => by
    obtain ⟨a, b⟩ := x
    have hne : a ≠ k := h (a, b) (by simp)
    have hbeq : (k == a) = false := by
      rw [beq_eq_false_iff_ne]
      exact fun hh => hne hh.symm
    rw [List.cons_append, List.lookup_cons, hbeq]
    exact lookup_append_of_forall_ne k xs ys (fun y hy => h y (by simp [hy]))

theorem hasType_bool {e : ConfigEntry} (hb : e.IsBool = true)
    (ht : e.Default.hasType e.Typ = true) : ∃ b, e.Default = .bool b := by
  have hty : e.Typ = BoolType := by simpa [ConfigEntry.IsBool] using hb
  rw [hty] at ht
  cases hd : e.Default with
  | bool b => exact ⟨b, rfl⟩
  | nil => simp [hd, Value.hasType] at ht
  | other x => simp [hd, Value.hasType] at ht
  | int i => exact absurd (by simpa [hd, Value.hasType] using ht) (by decide : ¬ BoolType = IntType)
  | str x =>
    exact absurd (by simpa [hd, Value.hasType] using ht) (by decide : ¬ BoolType = StringType)

theorem hasType_int {e : ConfigEntry} (hb : e.IsInt = true)
    (ht : e.Default.hasType e.Typ = true) : ∃ i, e.Default = .int i := by
  have hty : e.Typ = IntType := by simpa [ConfigEntry.IsInt] using hb
  rw [hty] at ht
  cases hd : e.Default with
  | int i => exact ⟨i, rfl⟩
  | nil => simp [hd, Value.hasType] at ht
  | other x => simp [hd, Value.hasType] at ht
  | bool b => exact absurd (by simpa [hd, Value.hasType] using ht) (by decide : ¬ IntType = BoolType)
  | str x =>
    exact absurd (by simpa [hd, Value.hasType] using ht) (by decide : ¬ IntType = StringType)

theorem hasType_str {e : ConfigEntry} (hb : e.IsString = true)
    (ht : e.Default.hasType e.Typ = true) : ∃ x, e.Default = .str x := by
  have hty : e.Typ = StringType := by simpa [ConfigEntry.IsString] using hb
  rw [hty] at ht
  cases hd : e.Default with
  | str x => exact ⟨x, rfl⟩
  | nil => simp [hd, Value.hasType] at ht
  | other x => simp [hd, Value.hasType] at ht
  | bool b =>
    exact absurd (by simpa [hd, Value.hasType] using ht) (by decide : ¬ StringType = BoolType)
  | int i =>
    exact absurd (by simpa [hd, Value.hasType] using ht) (by decide : ¬ StringType = IntType)

/-- After a returning registration, the store's default for the name of a
visited scalar that no later visited scalar shares is that scalar's `Default`. -/
theorem registered_default {fs fs1 : FlagSet} {cfg cfg1 : Viper} {l : List ConfigEntry}
    (h : Effect fs cfg fs1 cfg1 l) (l1 l2 : List ConfigEntry) (e : ConfigEntry)
    (hsplit : l.filter ConfigEntry.IsScalar = l1 ++ e :: l2)
    (hlast : ∀ x ∈ l2, x.GetName ≠ e.GetName) :
    cfg1.defaultOf e.GetName = some e.Default ∧ e.Default.hasType e.Typ = true := by
  obtain ⟨_, hd, _, ht⟩ := h
  have hmem : e ∈ l.filter ConfigEntry.IsScalar := by
    rw [hsplit]
    simp
  have hel := List.mem_filter.1 hmem
  refine ⟨?_, ht e hel.1 hel.2⟩
  unfold Viper.defaultOf
  rw [hd, hsplit, List.map_append, List.map_cons, List.reverse_append, List.reverse_cons,
    List.append_assoc, List.append_assoc]
  rw [lookup_append_of_forall_ne]
  · simp [List.lookup_cons]
  · intro x hx
    obtain ⟨y, hy, hxy⟩ := List.mem_map.1 (List.mem_reverse.1 hx)
    subst hxy
    exact hlast y hy

theorem declare_error_isPanic {fs : FlagSet} {name usage : String} {zero : Value} {f : Fatal}
    (h : fs.declare name zero usage = .error f) : f.isPanic = true := by
  unfold FlagSet.declare at h
  split at h
  · simp only [Except.error.injEq] at h
    subst h
    rfl
  · simp at h

theorem addBool_error_isPanic {fs : FlagSet} {cfg : Viper} {e : ConfigEntry} {f : Fatal}
    (h : addBool fs cfg e = .error f) : f.isPanic = true := by
  unfold addBool at h
  cases hd : fs.declare e.FlagName (.bool false) e.Help with
  | error g =>
    simp only [hd, Except.error.injEq] at h
    subst h
    exact declare_error_isPanic hd
  | ok fs2 =>
    cases hdf : e.Default <;> simp [hd, ConfigEntry.GetBool, hdf] at h <;> subst h <;> rfl

theorem addInt_error_isPanic {fs : FlagSet} {cfg : Viper} {e : ConfigEntry} {f : Fatal}
    (h : addInt fs cfg e = .error f) : f.isPanic = true := by
  unfold addInt at h
  cases hd : fs.declare e.FlagName (.int 0) e.Help with
  | error g =>
    simp only [hd, Except.error.injEq] at h
    subst h
    exact declare_error_isPanic hd
  | ok fs2 =>
    cases hdf : e.Default <;> simp [hd, ConfigEntry.GetInt, hdf] at h <;> subst h <;> rfl

theorem addString_error_isPanic {fs : FlagSet} {cfg : Viper} {e : ConfigEntry} {f : Fatal}
    (h : addString fs cfg e = .error f) : f.isPanic = true := by
  unfold addString at h
  cases hd : fs.declare e.FlagName (.str "") e.Help with
  | error g =>
    simp only [hd, Except.error.injEq] at h
    subst h
    exact declare_error_isPanic hd
  | ok fs2 =>
    cases hdf : e.Default <;> simp [hd, ConfigEntry.GetString, hdf] at h <;> subst h <;> rfl

mutual
theorem addConfigChildren_error_isPanic :
    ∀ (es : List ConfigEntry) (fs : FlagSet) (cfg : Viper) (p : String) (f : Fatal),
      addConfigChildren fs cfg p es = .error f → f.isPanic = true
  | [], fs, cfg, p, f => by
    intro h
    simp [addConfigChildren] at h
  | e :: rest, fs, cfg, p, f => by
    intro h
    rw [addConfigChildren] at h
    cases he : addConfigEntry fs cfg p e with
    | error g =>
      simp only [he, Except.error.injEq] at h
      subst h
      exact addConfigEntry_error_isPanic e fs cfg p g he
    | ok ra =>
      obtain ⟨fsa, cfga, ea⟩ := ra
      cases hr : addConfigChildren fsa cfga p rest with
      | error g =>
        simp only [he, hr, Except.error.injEq] at h
        subst h
        exact addConfigChildren_error_isPanic rest fsa cfga p g hr
      | ok rb => simp [he, hr] at h
theorem addConfigEntry_error_isPanic :
    ∀ (e : ConfigEntry) (fs : FlagSet) (cfg : Viper) (p : String) (f : Fatal),
      addConfigEntry fs cfg p e = .error f → f.isPanic = true
  | .mk t n hh r d c q, fs, cfg, p, f => by
    intro h
    rw [addConfigEntry] at h
    by_cases hb : (ConfigEntry.mk t n hh r d c p).IsBool = true
    · simp only [hb, if_true] at h
      cases ha : addBool fs cfg (ConfigEntry.mk t n hh r d c p) with
      | error g =>
        simp only [ha, Except.error.injEq] at h
        subst h
        exact addBool_error_isPanic ha
      | ok ra => simp [ha] at h
    · have hb : (ConfigEntry.mk t n hh r d c p).IsBool = false := by simpa using hb
      simp only [hb, Bool.false_eq_true, if_false] at h
      by_cases hi : (ConfigEntry.mk t n hh r d c p).IsInt = true
      · simp only [hi, if_true] at h
        cases ha : addInt fs cfg (ConfigEntry.mk t n hh r d c p) with
        | error g =>
          simp only [ha, Except.error.injEq] at h
          subst h
          exact addInt_error_isPanic ha
        | ok ra => simp [ha] at h
      · have hi : (ConfigEntry.mk t n hh r d c p).IsInt = false := by simpa using hi
        simp only [hi, Bool.false_eq_true, if_false] at h
        by_cases hs : (ConfigEntry.mk t n hh r d c p).IsString = true
        · simp only [hs, if_true] at h
          cases ha : addString fs cfg (ConfigEntry.mk t n hh r d c p) with
          | error g =>
            simp only [ha, Except.error.injEq] at h
            subst h
            exact addString_error_isPanic ha
          | ok ra => simp [ha] at h
        · have hs : (ConfigEntry.mk t n hh r d c p).IsString = false := by simpa using hs
          simp only [hs, Bool.false_eq_true, if_false] at h
          by_cases hp : (ConfigEntry.mk t n hh r d c p).IsParent = true
          · simp only [hp, if_true] at h
            cases ha : addConfigChildren fs cfg (ConfigEntry.mk t n hh r d c p).GetName c with
            | error g =>
              simp only [ha, Except.error.injEq] at h
              subst h
              exact addConfigChildren_error_isPanic c fs cfg _ g ha
            | ok ra => simp [ha] at h
          · simp only [hp, Bool.false_eq_true, if_false, Except.error.injEq] at h
            subst h
            rfl
end

mutual
theorem reached_stamp_typ :
    ∀ (es : List ConfigEntry) (p : String),
      (reached (stamp p es)).map ConfigEntry.Typ = (reached es).map ConfigEntry.Typ
  | [], _ => by simp [stamp, reached]
  | e :: rest, p => by
    rw [stamp, reached, reached, List.map_append, List.map_append,
      reachedFrom_stampEntry_typ e p, reached_stamp_typ rest p]
theorem reachedFrom_stampEntry_typ :
    ∀ (e : ConfigEntry) (p : String),
      (reachedFrom (stampEntry p e)).map ConfigEntry.Typ = (reachedFrom e).map ConfigEntry.Typ
  | .mk t n h r d c q, p => by
    rw [stampEntry]
    by_cases hp : (ConfigEntry.mk t n h r d c p).IsParent = true
    · have hp1 : (ConfigEntry.mk t n h r d
          (stamp (ConfigEntry.mk t n h r d c p).GetName c) p).IsParent = true := hp
      have hp2 : (ConfigEntry.mk t n h r d c q).IsParent = true := hp
      simp only [hp, if_true]
      rw [reachedFrom, reachedFrom]
      simp only [hp1, hp2, if_true, List.map_cons]
      rw [reached_stamp_typ c _]
      rfl
    · have hp : (ConfigEntry.mk t n h r d c p).IsParent = false := by simpa using hp
      have hp2 : (ConfigEntry.mk t n h r d c q).IsParent = false := hp
      simp only [hp, Bool.false_eq_true, if_false]
      rw [reachedFrom_leaf _ hp, reachedFrom_leaf _ hp2]
      rfl
end

theorem reached_append (xs ys : List ConfigEntry) :
    reached (xs ++ ys) = reached xs ++ reached ys := by
  induction xs with
  | nil => simp [reached]
  | cons x xs ih => rw [List.cons_append, reached, reached, ih, List.append_assoc]

theorem contains_refl (s : String) : Contains s s :=
  ⟨"", "", by simp⟩

theorem contains_append_right {t s : String} (u : String) (h : Contains t s) :
    Contains (t ++ u) s := by
  obtain ⟨pre, post, rfl⟩ := h
  exact ⟨pre, post ++ u, by simp [String.append_assoc]⟩

theorem contains_append_left {t s : String} (u : String) (h : Contains t s) :
    Contains (u ++ t) s := by
  obtain ⟨pre, post, rfl⟩ := h
  exact ⟨u ++ pre, post, by simp [String.append_assoc]⟩

theorem intercalate_go_contains (sep name : String) :
    ∀ (xs : List String) (acc : String), Contains acc name ∨ name ∈ xs →
      Contains (String.intercalate.go acc sep xs) name
  | [], acc, h => by
    rcases h with h | h
    · simpa [String.intercalate.go] using h
    · simp at h
  | a :: rest, acc, h => by
    rw [String.intercalate.go]
    apply intercalate_go_contains sep name rest
    rcases h with h | h
    · exact Or.inl (contains_append_right _ (contains_append_right _ h))
    · rcases List.mem_cons.1 h with h1 | h1
      · subst h1
        exact Or.inl (contains_append_left _ (contains_refl _))
      · exact Or.inr h1

theorem intercalate_contains (sep name : String) (xs : List String) (h : name ∈ xs) :
    Contains (sep.intercalate xs) name := by
  cases xs with
  | nil => simp at h
  | cons a rest =>
    rw [String.intercalate]
    apply intercalate_go_contains
    rcases List.mem_cons.1 h with h1 | h1
    · subst h1
      exact Or.inl (contains_refl _)
    · exact Or.inr h1

/-- What a returning `BuildConfig` went through: registration from root prefix
`""` and command-line parsing both returned, and the error is decided by the
missing list alone. -/
theorem BuildConfig_ok {W : World} {fs : FlagSet} {cfg : Option Viper} {es : List ConfigEntry}
    {r : BuildResult} (h : BuildConfig W fs cfg es = .ok r) :
    r.config = stamp "" es ∧
    r.err = (if (verifyRequiredConfigs W.resolution r.CommandLine r.cfg "" r.config).length > 0
      then some ("You must set these config itmes: "
        ++ sprintV (verifyRequiredConfigs W.resolution r.CommandLine r.cfg "" r.config))
      else none) := by
  unfold BuildConfig at h
  simp only at h
  split at h
  · simp at h
  · rename_i fs1 cfg7 config1 hreg
    split at h
    · simp at h
    · rename_i fs2 hparse
      simp only [Except.ok.injEq] at h
      subst h
      obtain ⟨h1, _⟩ := addConfigChildren_ok _ _ _ _ _ _ _ hreg
      exact ⟨h1, rfl⟩

theorem floatSchema_has_unknown : ∃ e ∈ reached floatSchema, e.IsKnown = false := by
  refine ⟨.mk "float" "ratio" "" false (.other "float64") [] "", ?_, by decide⟩
  have h : reached floatSchema =
      [ .mk IntType "port" "" true (.int 80) [] "",
        .mk ParentType "net" "" false .nil
          [ .mk "float" "ratio" "" false (.other "float64") [] "" ] "",
        .mk "float" "ratio" "" false (.other "float64") [] "" ] := rfl
  rw [h]
  simp

/-! ## A registration principle -/

theorem addBool_shape {fs fs1 : FlagSet} {cfg cfg1 : Viper} {e : ConfigEntry}
    (hb : e.IsBool = true) (h : addBool fs cfg e = .ok (fs1, cfg1)) :
    fs.Lookup e.FlagName = none ∧ fs1 = fs ++ [flagOf e] ∧
      cfg1 = cfg.SetDefault e.GetName e.Default := by
  unfold addBool at h
  cases hd : fs.declare e.FlagName (.bool false) e.Help with
  | error f => simp [hd] at h
  | ok fs2 =>
    obtain ⟨hl, hfs⟩ := declare_ok hd
    have hz : flagOf e = ⟨e.FlagName, e.Help, .bool false, .bool false, false⟩ := by
      simp [flagOf, zeroOf, hb]
    cases hdf : e.Default <;> simp [hd, ConfigEntry.GetBool, hdf] at h
    obtain ⟨h1, h2⟩ := h
    exact ⟨hl, by rw [hz, ← h1, hfs], h2.symm⟩

theorem addInt_shape {fs fs1 : FlagSet} {cfg cfg1 : Viper} {e : ConfigEntry}
    (hb : e.IsBool = false) (hi : e.IsInt = true) (h : addInt fs cfg e = .ok (fs1, cfg1)) :
    fs.Lookup e.FlagName = none ∧ fs1 = fs ++ [flagOf e] ∧
      cfg1 = cfg.SetDefault e.GetName e.Default := by
  unfold addInt at h
  cases hd : fs.declare e.FlagName (.int 0) e.Help with
  | error f => simp [hd] at h
  | ok fs2 =>
    obtain ⟨hl, hfs⟩ := declare_ok hd
    have hz : flagOf e = ⟨e.FlagName, e.Help, .int 0, .int 0, false⟩ := by
      simp [flagOf, zeroOf, hb, hi]
    cases hdf : e.Default <;> simp [hd, ConfigEntry.GetInt, hdf] at h
    obtain ⟨h1, h2⟩ := h
    exact ⟨hl, by rw [hz, ← h1, hfs], h2.symm⟩

theorem addString_shape {fs fs1 : FlagSet} {cfg cfg1 : Viper} {e : ConfigEntry}
    (hb : e.IsBool = false) (hi : e.IsInt = false)
    (h : addString fs cfg e = .ok (fs1, cfg1)) :
    fs.Lookup e.FlagName = none ∧ fs1 = fs ++ [flagOf e] ∧
      cfg1 = cfg.SetDefault e.GetName e.Default := by
  unfold addString at h
  cases hd : fs.declare e.FlagName (.str "") e.Help with
  | error f => simp [hd] at h
  | ok fs2 =>
    obtain ⟨hl, hfs⟩ := declare_ok hd
    have hz : flagOf e = ⟨e.FlagName, e.Help, .str "", .str "", false⟩ := by
      simp [flagOf, zeroOf, hb, hi]
    cases hdf : e.Default <;> simp [hd, ConfigEntry.GetString, hdf] at h
    obtain ⟨h1, h2⟩ := h
    exact ⟨hl, by rw [hz, ← h1, hfs], h2.symm⟩

mutual
/-- Induction over a returning registration: a property of the registry and the
store before and after, and of the visited entries, that holds for no entry,
composes along the loop, holds for the step of a scalar entry (declare, set the
default, bind) and survives the bind after a parent's `Children`, holds for
every returning call. -/
theorem addConfigChildren_induct
    (P : FlagSet → Viper → FlagSet → Viper → List ConfigEntry → Prop)
    (hnil : ∀ fs cfg, P fs cfg fs cfg [])
    (happ : ∀ fs cfg fs1 cfg1 fs2 cfg2 l1 l2,
      P fs cfg fs1 cfg1 l1 → P fs1 cfg1 fs2 cfg2 l2 → P fs cfg fs2 cfg2 (l1 ++ l2))
    (hscalar : ∀ fs cfg (e : ConfigEntry), e.IsScalar = true → fs.Lookup e.FlagName = none →
      P fs cfg (fs ++ [flagOf e])
        (bindEntry (fs ++ [flagOf e]) (cfg.SetDefault e.GetName e.Default) e) [e])
    (hparent : ∀ fs cfg fs1 cfg1 (e : ConfigEntry) l, e.IsParent = true →
      P fs cfg fs1 cfg1 l → P fs cfg fs1 (bindEntry fs1 cfg1 e) (e :: l)) :
    ∀ (es : List ConfigEntry) (fs : FlagSet) (cfg : Viper) (p : String)
      (fs1 : FlagSet) (cfg1 : Viper) (es1 : List ConfigEntry),
      addConfigChildren fs cfg p es = .ok (fs1, cfg1, es1) →
      P fs cfg fs1 cfg1 (reached es1)
  | [], fs, cfg, p, fs1, cfg1, es1 => by
    intro h
    simp only [addConfigChildren, Except.ok.injEq, Prod.mk.injEq] at h
    obtain ⟨h1, h2, h3⟩ := h
    subst h1 h2 h3
    simpa [reached] using hnil fs cfg
  | e :: rest, fs, cfg, p, fs1, cfg1, es1 => by
    intro h
    rw [addConfigChildren] at h
    cases he : addConfigEntry fs cfg p e with
    | error f => simp [he] at h
    | ok ra =>
      obtain ⟨fsa, cfga, ea⟩ := ra
      cases hr : addConfigChildren fsa cfga p rest with
      | error f => simp [he, hr] at h
      | ok rb =>
        obtain ⟨fsb, cfgb, restb⟩ := rb
        simp only [he, hr, Except.ok.injEq, Prod.mk.injEq] at h
        obtain ⟨h1, h2, h3⟩ := h
        subst h1 h2 h3
        have ha := addConfigEntry_induct P hnil happ hscalar hparent e fs cfg p fsa cfga ea he
        have hb := addConfigChildren_induct P hnil happ hscalar hparent rest fsa cfga p fsb cfgb
          restb hr
        rw [reached]
        exact happ _ _ _ _ _ _ _ _ ha hb
theorem addConfigEntry_induct
    (P : FlagSet → Viper → FlagSet → Viper → List ConfigEntry → Prop)
    (hnil : ∀ fs cfg, P fs cfg fs cfg [])
    (happ : ∀ fs cfg fs1 cfg1 fs2 cfg2 l1 l2,
      P fs cfg fs1 cfg1 l1 → P fs1 cfg1 fs2 cfg2 l2 → P fs cfg fs2 cfg2 (l1 ++ l2))
    (hscalar : ∀ fs cfg (e : ConfigEntry), e.IsScalar = true → fs.Lookup e.FlagName = none →
      P fs cfg (fs ++ [flagOf e])
        (bindEntry (fs ++ [flagOf e]) (cfg.SetDefault e.GetName e.Default) e) [e])
    (hparent : ∀ fs cfg fs1 cfg1 (e : ConfigEntry) l, e.IsParent = true →
      P fs cfg fs1 cfg1 l → P fs cfg fs1 (bindEntry fs1 cfg1 e) (e :: l)) :
    ∀ (e : ConfigEntry) (fs : FlagSet) (cfg : Viper) (p : String)
      (fs1 : FlagSet) (cfg1 : Viper) (e1 : ConfigEntry),
      addConfigEntry fs cfg p e = .ok (fs1, cfg1, e1) →
      P fs cfg fs1 cfg1 (reachedFrom e1)
  | .mk t n hh r d c q, fs, cfg, p, fs1, cfg1, e1 => by
    intro h
    rw [addConfigEntry] at h
    by_cases hb : (ConfigEntry.mk t n hh r d c p).IsBool = true
    · simp only [hb, if_true] at h
      have hp := isParent_of_not_scalar (Or.inl hb)
      cases ha : addBool fs cfg (ConfigEntry.mk t n hh r d c p) with
      | error f => simp [ha] at h
      | ok ra =>
        obtain ⟨fsa, cfga⟩ := ra
        simp only [ha, Except.ok.injEq, Prod.mk.injEq] at h
        obtain ⟨h1, h2, h3⟩ := h
        subst h1 h2 h3
        obtain ⟨s1, s2, s3⟩ := addBool_shape hb ha
        subst s2 s3
        rw [reachedFrom_leaf _ hp]
        exact hscalar _ _ _ (by simp [ConfigEntry.IsScalar, hb]) s1
    · have hb : (ConfigEntry.mk t n hh r d c p).IsBool = false := by simpa using hb
      simp only [hb, Bool.false_eq_true, if_false] at h
      by_cases hi : (ConfigEntry.mk t n hh r d c p).IsInt = true
      · simp only [hi, if_true] at h
        have hp := isParent_of_not_scalar (Or.inr (Or.inl hi))
        cases ha : addInt fs cfg (ConfigEntry.mk t n hh r d c p) with
        | error f => simp [ha] at h
        | ok ra =>
          obtain ⟨fsa, cfga⟩ := ra
          simp only [ha, Except.ok.injEq, Prod.mk.injEq] at h
          obtain ⟨h1, h2, h3⟩ := h
          subst h1 h2 h3
          obtain ⟨s1, s2, s3⟩ := addInt_shape hb hi ha
          subst s2 s3
          rw [reachedFrom_leaf _ hp]
          exact hscalar _ _ _ (by simp [ConfigEntry.IsScalar, hi]) s1
      · have hi : (ConfigEntry.mk t n hh r d c p).IsInt = false := by simpa using hi
        simp only [hi, Bool.false_eq_true, if_false] at h
        by_cases hs : (ConfigEntry.mk t n hh r d c p).IsString = true
        · simp only [hs, if_true] at h
          have hp := isParent_of_not_scalar (Or.inr (Or.inr hs))
          cases ha : addString fs cfg (ConfigEntry.mk t n hh r d c p) with
          | error f => simp [ha] at h
          | ok ra =>
            obtain ⟨fsa, cfga⟩ := ra
            simp only [ha, Except.ok.injEq, Prod.mk.injEq] at h
            obtain ⟨h1, h2, h3⟩ := h
            subst h1 h2 h3
            obtain ⟨s1, s2, s3⟩ := addString_shape hb hi ha
            subst s2 s3
            rw [reachedFrom_leaf _ hp]
            exact hscalar _ _ _ (by simp [ConfigEntry.IsScalar, hs]) s1
        · have hs : (ConfigEntry.mk t n hh r d c p).IsString = false := by simpa using hs
          simp only [hs, Bool.false_eq_true, if_false] at h
          by_cases hp : (ConfigEntry.mk t n hh r d c p).IsParent = true
          · simp only [hp, if_true] at h
            cases ha : addConfigChildren fs cfg (ConfigEntry.mk t n hh r d c p).GetName c with
            | error f => simp [ha] at h
            | ok ra =>
              obtain ⟨fsa, cfga, ca⟩ := ra
              simp only [ha, Except.ok.injEq, Prod.mk.injEq] at h
              obtain ⟨h1, h2, h3⟩ := h
              subst h1 h2 h3
              have hc := addConfigChildren_induct P hnil happ hscalar hparent c fs cfg _ _ cfga
                ca ha
              have hp1 : (ConfigEntry.mk t n hh r d ca p).IsParent = true := hp
              rw [reachedFrom]
              simp only [hp1, if_true]
              exact hparent _ _ _ _ _ _ hp1 hc
          · simp [hp] at h
end

/-! ## The registry and the bindings after registration -/

theorem Lookup_append_some {fs : FlagSet} {n : String} {f : Flag} (gs : FlagSet)
    (h : fs.Lookup n = some f) : FlagSet.Lookup (fs ++ gs) n = some f := by
  unfold FlagSet.Lookup at *
  rw [List.find?_append, h]
  rfl

theorem Lookup_append_of_none {fs : FlagSet} {n : String} (gs : FlagSet)
    (h : fs.Lookup n = none) : FlagSet.Lookup (fs ++ gs) n = gs.Lookup n := by
  unfold FlagSet.Lookup at *
  rw [List.find?_append, h]
  rfl

theorem Lookup_none_of_append {fs gs : FlagSet} {n : String}
    (h : FlagSet.Lookup (fs ++ gs) n = none) : fs.Lookup n = none ∧ gs.Lookup n = none := by
  cases hf : fs.Lookup n with
  | some f => rw [Lookup_append_some gs hf] at h; exact absurd h (by simp)
  | none => rw [Lookup_append_of_none gs hf] at h; exact ⟨rfl, h⟩

theorem Lookup_name {fs : FlagSet} {n : String} {f : Flag} (h : fs.Lookup n = some f) :
    f.Name = n := by
  unfold FlagSet.Lookup at h
  simpa using List.find?_some h

theorem Lookup_flagOf (e : ConfigEntry) :
    FlagSet.Lookup [flagOf e] e.FlagName = some (flagOf e) := by
  simp [FlagSet.Lookup, List.find?_cons, flagOf]

theorem Lookup_isSome_append {fs : FlagSet} {n : String} (gs : FlagSet)
    (h : (fs.Lookup n).isSome = true) : (FlagSet.Lookup (fs ++ gs) n).isSome = true := by
  cases hf : fs.Lookup n with
  | some f => rw [Lookup_append_some gs hf]; rfl
  | none => rw [hf] at h; exact absurd h (by simp)

theorem declared_nil (fs : FlagSet) (cfg : Viper) : Declared fs cfg fs cfg [] := by
  simp [Declared]

theorem declared_append {fs fs1 fs2 : FlagSet} {cfg cfg1 cfg2 : Viper}
    {l1 l2 : List ConfigEntry}
    (h1 : Declared fs cfg fs1 cfg1 l1) (h2 : Declared fs1 cfg1 fs2 cfg2 l2) :
    Declared fs cfg fs2 cfg2 (l1 ++ l2) := by
  obtain ⟨a1, b1, c1⟩ := h1
  obtain ⟨a2, b2, c2⟩ := h2
  refine ⟨?_, ?_, ?_⟩
  · rw [a2, a1, List.filter_append, List.map_append, List.append_assoc]
  · intro e he hs
    rcases List.mem_append.1 he with h | h
    · exact b1 e h hs
    · have := b2 e h hs
      rw [a1] at this
      exact (Lookup_none_of_append this).1
  · intro e he hs
    rcases List.mem_append.1 he with h | h
    · rw [a2]
      exact Lookup_append_some _ (c1 e h hs)
    · exact c2 e h hs

theorem declared_scalar (fs : FlagSet) (cfg cfg1 : Viper) (e : ConfigEntry)
    (hs : e.IsScalar = true) (hl : fs.Lookup e.FlagName = none) :
    Declared fs cfg (fs ++ [flagOf e]) cfg1 [e] := by
  refine ⟨?_, ?_, ?_⟩
  · simp [List.filter_cons, hs]
  · intro x hx _
    rw [List.mem_singleton.1 hx]
    exact hl
  · intro x hx _
    rw [List.mem_singleton.1 hx, Lookup_append_of_none _ hl]
    exact Lookup_flagOf e

theorem declared_parent {fs fs1 : FlagSet} {cfg cfg1 : Viper} {l : List ConfigEntry}
    (h : Declared fs cfg fs1 cfg1 l) (cfg2 : Viper) (e : ConfigEntry)
    (hp : e.IsParent = true) : Declared fs cfg fs1 cfg2 (e :: l) := by
  obtain ⟨hb, hi, hs⟩ := isParent_not_scalar e hp
  have hsc : e.IsScalar = false := by simp [ConfigEntry.IsScalar, hb, hi, hs]
  obtain ⟨a, b, c⟩ := h
  refine ⟨?_, ?_, ?_⟩
  · simpa [List.filter_cons, hsc] using a
  · intro x hx hxs
    rcases List.mem_cons.1 hx with h | h
    · subst h
      simp [hsc] at hxs
    · exact b x h hxs
  · intro x hx hxs
    rcases List.mem_cons.1 hx with h | h
    · subst h
      simp [hsc] at hxs
    · exact c x h hxs

/-- A returning registration appends exactly the flags of the visited scalar
entries, each under a name that was free. -/
theorem addConfigChildren_declared {fs fs1 : FlagSet} {cfg cfg1 : Viper} {p : String}
    {es es1 : List ConfigEntry}
    (h : addConfigChildren fs cfg p es = .ok (fs1, cfg1, es1)) :
    Declared fs cfg fs1 cfg1 (reached es1) :=
  addConfigChildren_induct Declared declared_nil
    (fun _ _ _ _ _ _ _ _ h1 h2 => declared_append h1 h2)
    (fun fs cfg e hs hl => declared_scalar fs cfg _ e hs hl)
    (fun _ _ _ _ e _ hp h => declared_parent h _ e hp)
    es fs cfg p fs1 cfg1 es1 h

theorem lookup_append_some {β : Type} (k : String) (v : β) :
    ∀ (xs ys : List (String × β)), (∀ x ∈ xs, x.1 = k → x.2 = v) →
      List.lookup k ys = some v → List.lookup k (xs ++ ys) = some v
  | [], _, _, h => h
  | x :: xs, ys, hx, h => by
    obtain ⟨a, b⟩ := x
    rw [List.cons_append, List.lookup_cons]
    cases hk : (k == a) with
    | true =>
      have hka : a = k := (beq_iff_eq.1 hk).symm
      have := hx (a, b) (by simp) hka
      simp only at this
      simp [this]
    | false =>
      exact lookup_append_some k v xs ys (fun y hy => hx y (by simp [hy])) h

theorem flagName_congr {e1 e2 : ConfigEntry} (h : e1.GetName = e2.GetName) :
    e1.FlagName = e2.FlagName := by
  unfold ConfigEntry.FlagName
  rw [h]

theorem bindEntry_cases (fs : FlagSet) (cfg : Viper) (e : ConfigEntry) :
    (fs.Lookup e.FlagName = none ∧ bindEntry fs cfg e = cfg) ∨
    ((fs.Lookup e.FlagName).isSome = true ∧
      bindEntry fs cfg e = { cfg with pflags := (e.GetName, e.FlagName) :: cfg.pflags }) := by
  unfold bindEntry Viper.BindPFlag
  cases hl : fs.Lookup e.FlagName with
  | none => exact Or.inl ⟨rfl, rfl⟩
  | some f =>
    right
    refine ⟨rfl, ?_⟩
    simp only
    rw [Lookup_name hl]

theorem bound_nil (fs : FlagSet) (cfg : Viper) : Bound fs cfg fs cfg [] := by
  refine ⟨⟨[], by simp⟩, ⟨[], by simp⟩, ?_, rfl, rfl, rfl, rfl, rfl⟩
  intro e he
  simp at he

theorem bound_append {fs fs1 fs2 : FlagSet} {cfg cfg1 cfg2 : Viper}
    {l1 l2 : List ConfigEntry}
    (h1 : Bound fs cfg fs1 cfg1 l1) (h2 : Bound fs1 cfg1 fs2 cfg2 l2) :
    Bound fs cfg fs2 cfg2 (l1 ++ l2) := by
  obtain ⟨⟨x1, a1⟩, ⟨bs1, b1, c1⟩, d1, e1, f1, g1, i1, j1⟩ := h1
  obtain ⟨⟨x2, a2⟩, ⟨bs2, b2, c2⟩, d2, e2, f2, g2, i2, j2⟩ := h2
  refine ⟨⟨x1 ++ x2, by rw [a2, a1, List.append_assoc]⟩,
    ⟨bs2 ++ bs1, by rw [b2, b1, List.append_assoc], ?_⟩, ?_,
    e2.trans e1, f2.trans f1, g2.trans g1, i2.trans i1, j2.trans j1⟩
  · intro b hb
    rcases List.mem_append.1 hb with h | h
    · obtain ⟨e, he, hbe, hsome⟩ := c2 b h
      exact ⟨e, List.mem_append.2 (Or.inr he), hbe, hsome⟩
    · obtain ⟨e, he, hbe, hsome⟩ := c1 b h
      refine ⟨e, List.mem_append.2 (Or.inl he), hbe, ?_⟩
      rw [a2]
      exact Lookup_isSome_append _ hsome
  · intro e he hs
    rcases List.mem_append.1 he with h | h
    · have hb1 := d1 e h hs
      unfold Viper.boundFlag at hb1 ⊢
      rw [b2]
      apply lookup_append_some _ _ _ _ _ hb1
      intro x hx hk
      obtain ⟨e3, _, hxe, _⟩ := c2 x hx
      subst hxe
      exact flagName_congr hk
    · exact d2 e h hs

theorem bound_bindStep {fs fs1 : FlagSet} {cfg cfg1 : Viper} {l : List ConfigEntry}
    (h : Bound fs cfg fs1 cfg1 l) (e : ConfigEntry)
    (hsc : e.IsScalar = true → (fs1.Lookup e.FlagName).isSome = true) :
    Bound fs cfg fs1 (bindEntry fs1 cfg1 e) (e :: l) := by
  obtain ⟨a, ⟨bs, b, c⟩, d, e1, f1, g1, i1, j1⟩ := h
  rcases bindEntry_cases fs1 cfg1 e with ⟨hl, hb⟩ | ⟨hl, hb⟩
  · rw [hb]
    refine ⟨a, ⟨bs, b, ?_⟩, ?_, e1, f1, g1, i1, j1⟩
    · intro x hx
      obtain ⟨y, hy, hxy, hsome⟩ := c x hx
      exact ⟨y, List.mem_cons_of_mem _ hy, hxy, hsome⟩
    · intro x hx hxs
      rcases List.mem_cons.1 hx with h | h
      · subst h
        have := hsc hxs
        rw [hl] at this
        exact absurd this (by simp)
      · exact d x h hxs
  · rw [hb]
    refine ⟨a, ⟨(e.GetName, e.FlagName) :: bs, by simp [b], ?_⟩, ?_, e1, f1, g1, i1, j1⟩
    · intro x hx
      rcases List.mem_cons.1 hx with h | h
      · exact ⟨e, List.mem_cons_self _ _, h, hl⟩
      · obtain ⟨y, hy, hxy, hsome⟩ := c x h
        exact ⟨y, List.mem_cons_of_mem _ hy, hxy, hsome⟩
    · intro x hx hxs
      unfold Viper.boundFlag
      simp only [List.lookup_cons]
      cases hk : (x.GetName == e.GetName) with
      | true => simp [flagName_congr (beq_iff_eq.1 hk)]
      | false =>
        rcases List.mem_cons.1 hx with h | h
        · subst h
          simp at hk
        · exact d x h hxs

theorem bound_scalar (fs : FlagSet) (cfg : Viper) (e : ConfigEntry)
    (hl : fs.Lookup e.FlagName = none) :
    Bound fs cfg (fs ++ [flagOf e])
      (bindEntry (fs ++ [flagOf e]) (cfg.SetDefault e.GetName e.Default) e) [e] := by
  have h0 : Bound fs cfg (fs ++ [flagOf e]) (cfg.SetDefault e.GetName e.Default) [] := by
    refine ⟨⟨[flagOf e], rfl⟩, ⟨[], by simp [Viper.SetDefault]⟩, ?_, rfl, rfl, rfl, rfl, rfl⟩
    intro x hx
    simp at hx
  refine bound_bindStep h0 e ?_
  intro _
  rw [Lookup_append_of_none _ hl, Lookup_flagOf]
  rfl

/-- A returning registration keeps the store's settings, adds only bindings of
visited entries to declared flags and binds every visited scalar entry. -/
theorem addConfigChildren_bound {fs fs1 : FlagSet} {cfg cfg1 : Viper} {p : String}
    {es es1 : List ConfigEntry}
    (h : addConfigChildren fs cfg p es = .ok (fs1, cfg1, es1)) :
    Bound fs cfg fs1 cfg1 (reached es1) :=
  addConfigChildren_induct Bound bound_nil
    (fun _ _ _ _ _ _ _ _ h1 h2 => bound_append h1 h2)
    (fun fs cfg e _ hl => bound_scalar fs cfg e hl)
    (fun _ _ _ _ e _ hp h => bound_bindStep h e (fun hs => by
      obtain ⟨hb, hi, hst⟩ := isParent_not_scalar e hp
      simp [ConfigEntry.IsScalar, hb, hi, hst] at hs))
    es fs cfg p fs1 cfg1 es1 h

/-! ## Stamping once more, and what stamping leaves alone -/

mutual
theorem stamp_idem :
    ∀ (es : List ConfigEntry) (p : String), stamp p (stamp p es) = stamp p es
  | [], _ => by simp [stamp]
  | e :: rest, p => by
    rw [stamp, stamp, stampEntry_idem e p, stamp_idem rest p]
theorem stampEntry_idem :
    ∀ (e : ConfigEntry) (p : String), stampEntry p (stampEntry p e) = stampEntry p e
  | .mk t n h r d c q, p => by
    by_cases hp : (ConfigEntry.mk t n h r d c p).IsParent = true
    · have h1 : stampEntry p (ConfigEntry.mk t n h r d c q)
          = ConfigEntry.mk t n h r d (stamp (ConfigEntry.mk t n h r d c p).GetName c) p := by
        rw [stampEntry]
        simp only [hp, if_true]
      have hp1 : (ConfigEntry.mk t n h r d
          (stamp (ConfigEntry.mk t n h r d c p).GetName c) p).IsParent = true := hp
      rw [h1, stampEntry]
      simp only [hp1, if_true]
      have hg : (ConfigEntry.mk t n h r d
          (stamp (ConfigEntry.mk t n h r d c p).GetName c) p).GetName
          = (ConfigEntry.mk t n h r d c p).GetName := rfl
      rw [hg, stamp_idem c _]
    · have hp : (ConfigEntry.mk t n h r d c p).IsParent = false := by simpa using hp
      rw [stampEntry_leaf _ _ _ _ _ _ _ _ hp, stampEntry_leaf _ _ _ _ _ _ _ _ hp]
end

mutual
theorem forgetPrefixes_stamp :
    ∀ (es : List ConfigEntry) (p : String), forgetPrefixes (stamp p es) = forgetPrefixes es
  | [], _ => by simp [stamp]
  | e :: rest, p => by
    rw [stamp, forgetPrefixes, forgetPrefixes, forgetPrefix_stampEntry e p,
      forgetPrefixes_stamp rest p]
theorem forgetPrefix_stampEntry :
    ∀ (e : ConfigEntry) (p : String), forgetPrefix (stampEntry p e) = forgetPrefix e
  | .mk t n h r d c q, p => by
    by_cases hp : (ConfigEntry.mk t n h r d c p).IsParent = true
    · have h1 : stampEntry p (ConfigEntry.mk t n h r d c q)
          = ConfigEntry.mk t n h r d (stamp (ConfigEntry.mk t n h r d c p).GetName c) p := by
        rw [stampEntry]
        simp only [hp, if_true]
      rw [h1, forgetPrefix, forgetPrefix, forgetPrefixes_stamp c _]
    · have hp : (ConfigEntry.mk t n h r d c p).IsParent = false := by simpa using hp
      rw [stampEntry_leaf _ _ _ _ _ _ _ _ hp, forgetPrefix, forgetPrefix]
end

theorem noHyphen_qualify {p n : String} (hp : noHyphen p) (hn : noHyphen n) :
    noHyphen (qualify p n) := by
  unfold qualify
  split
  · exact hn
  · unfold noHyphen at *
    simp only [String.data_append, List.mem_append, not_or]
    exact ⟨⟨hp, by decide⟩, hn⟩

mutual
theorem stamp_noHyphen :
    ∀ (es : List ConfigEntry) (p : String), noHyphen p →
      (∀ e ∈ reached es, noHyphen e.Name) →
      ∀ e ∈ reached (stamp p es), noHyphen e.GetName
  | [], _, _, _ => by simp [stamp, reached]
  | x :: rest, p, hp, hn => by
    intro e he
    rw [stamp, reached] at he
    rw [reached] at hn
    rcases List.mem_append.1 he with h | h
    · exact stampEntry_noHyphen x p hp (fun y hy => hn y (List.mem_append.2 (Or.inl hy))) e h
    · exact stamp_noHyphen rest p hp (fun y hy => hn y (List.mem_append.2 (Or.inr hy))) e h
theorem stampEntry_noHyphen :
    ∀ (x : ConfigEntry) (p : String), noHyphen p →
      (∀ e ∈ reachedFrom x, noHyphen e.Name) →
      ∀ e ∈ reachedFrom (stampEntry p x), noHyphen e.GetName
  | .mk t n h r d c q, p, hp, hn => by
    intro e he
    by_cases hpar : (ConfigEntry.mk t n h r d c p).IsParent = true
    · have h1 : stampEntry p (ConfigEntry.mk t n h r d c q)
          = ConfigEntry.mk t n h r d (stamp (ConfigEntry.mk t n h r d c p).GetName c) p := by
        rw [stampEntry]
        simp only [hpar, if_true]
      have hp1 : (ConfigEntry.mk t n h r d
          (stamp (ConfigEntry.mk t n h r d c p).GetName c) p).IsParent = true := hpar
      have hp2 : (ConfigEntry.mk t n h r d c q).IsParent = true := hpar
      rw [reachedFrom] at hn
      simp only [hp2, if_true] at hn
      have hname : noHyphen n := hn _ (List.mem_cons_self _ _)
      have hg : noHyphen (ConfigEntry.mk t n h r d c p).GetName := noHyphen_qualify hp hname
      rw [h1, reachedFrom] at he
      simp only [hp1, if_true] at he
      rcases List.mem_cons.1 he with h2 | h2
      · subst h2
        exact hg
      · exact stamp_noHyphen c _ hg (fun y hy => hn y (List.mem_cons_of_mem _ hy)) e h2
    · have hpar : (ConfigEntry.mk t n h r d c p).IsParent = false := by simpa using hpar
      have hp2 : (ConfigEntry.mk t n h r d c q).IsParent = false := hpar
      rw [reachedFrom_leaf _ hp2] at hn
      have hname : noHyphen n := hn _ (List.mem_singleton.2 rfl)
      rw [stampEntry_leaf _ _ _ _ _ _ _ _ hpar, reachedFrom_leaf _ hpar,
        List.mem_singleton] at he
      subst he
      exact noHyphen_qualify hp hname
end

theorem map_dot_injective :
    ∀ (l1 l2 : List Char), '-' ∉ l1 → '-' ∉ l2 →
      l1.map (fun c => if c = '.' then '-' else c) = l2.map (fun c => if c = '.' then '-' else c) →
      l1 = l2
  | [], [], _, _, _ => rfl
  | [], _ :: _, _, _, h => by simp at h
  | _ :: _, [], _, _, h => by simp at h
  | a :: l1, b :: l2, h1, h2, h => by
    simp only [List.map_cons, List.cons.injEq] at h
    simp only [List.mem_cons, not_or] at h1 h2
    have hab : a = b := by
      by_cases ha : a = '.'
      · by_cases hb : b = '.'
        · rw [ha, hb]
        · rw [if_pos ha, if_neg hb] at h
          exact absurd h.1 h2.1
      · by_cases hb : b = '.'
        · rw [if_neg ha, if_pos hb] at h
          exact absurd h.1.symm h1.1
        · rw [if_neg ha, if_neg hb] at h
          exact h.1
    rw [hab, map_dot_injective l1 l2 h1.2 h2.2 h.2]

theorem flagName_injective_of_noHyphen {e1 e2 : ConfigEntry}
    (h1 : noHyphen e1.GetName) (h2 : noHyphen e2.GetName) (h : e1.FlagName = e2.FlagName) :
    e1.GetName = e2.GetName := by
  apply String.ext
  apply map_dot_injective _ _ h1 h2
  rw [← flagName_data, ← flagName_data, h]

theorem filter_length_le_of_imp {α : Type} (p q : α → Bool) (hpq : ∀ x, p x = true → q x = true) :
    ∀ l : List α, (l.filter p).length ≤ (l.filter q).length
  | [] => by simp
  | x :: l => by
    have ih := filter_length_le_of_imp p q hpq l
    cases hp : p x with
    | true =>
      rw [List.filter_cons_of_pos hp, List.filter_cons_of_pos (hpq x hp)]
      simp only [List.length_cons]
      omega
    | false =>
      rw [List.filter_cons_of_neg (by simp [hp])]
      cases hq : q x with
      | true =>
        rw [List.filter_cons_of_pos hq]
        simp only [List.length_cons]
        omega
      | false =>
        rw [List.filter_cons_of_neg (by simp [hq])]
        exact ih

/-- What a returning `BuildConfig` on a given store went through. -/
theorem BuildConfig_some_ok {W : World} {fs : FlagSet} {c : Viper} {es : List ConfigEntry}
    {r : BuildResult} (h : BuildConfig W fs (some c) es = .ok r) :
    ∃ fs1, addConfigChildren fs (W.ReadInConfig (configured c)).1 "" es
        = .ok (fs1, r.cfg, r.config) ∧ W.Parse fs1 = .ok r.CommandLine := by
  unfold BuildConfig at h
  simp only at h
  split at h
  · simp at h
  · rename_i fs1 cfg7 config1 hreg
    split at h
    · simp at h
    · rename_i fs2 hparse
      simp only [Except.ok.injEq] at h
      subst h
      exact ⟨fs1, hreg, hparse⟩

theorem dbPortEntry_mem : dbPortEntry ∈ scalars sampleRegistered.2.2 := by
  have h : scalars sampleRegistered.2.2
      = (scalars sampleRegistered.2.2).take 2
        ++ dbPortEntry :: (scalars sampleRegistered.2.2).drop 3 := rfl
  rw [h]
  simp

theorem slackEntry_mem : slackEntry ∈ reached sampleRegistered.2.2 := by
  have h : reached sampleRegistered.2.2
      = (reached sampleRegistered.2.2).take 1
        ++ slackEntry :: (reached sampleRegistered.2.2).drop 2 := rfl
  rw [h]
  simp

theorem isKnown_false_iff (e : ConfigEntry) :
    e.IsKnown = false ↔
      e.IsBool = false ∧ e.IsInt = false ∧ e.IsString = false ∧ e.IsParent = false := by
  simp only [ConfigEntry.IsKnown, ConfigEntry.IsScalar, Bool.or_eq_false_iff]
  tauto

/-! ## Registration against a registry that already holds the flags -/

theorem declare_error_of_lookup {fs : FlagSet} {name : String} (zero : Value) (usage : String)
    (h : (fs.Lookup name).isSome = true) :
    fs.declare name zero usage = .error (.flagRedefined name) := by
  unfold FlagSet.declare
  simp [h]

/-- The loop body on a scalar entry whose flag name is already declared panics
with the flag library's redefinition error for that name. -/
theorem addConfigEntry_redeclared (fs : FlagSet) (cfg : Viper) (p : String)
    (t n h : String) (r : Bool) (d : Value) (c : List ConfigEntry) (q : String)
    (hsc : (ConfigEntry.mk t n h r d c p).IsScalar = true)
    (hl : (fs.Lookup (ConfigEntry.mk t n h r d c p).FlagName).isSome = true) :
    addConfigEntry fs cfg p (ConfigEntry.mk t n h r d c q)
      = .error (.flagRedefined (ConfigEntry.mk t n h r d c p).FlagName) := by
  rw [addConfigEntry]
  by_cases hb : (ConfigEntry.mk t n h r d c p).IsBool = true
  · simp only [hb, if_true, addBool, declare_error_of_lookup _ _ hl]
  · have hb : (ConfigEntry.mk t n h r d c p).IsBool = false := by simpa using hb
    by_cases hi : (ConfigEntry.mk t n h r d c p).IsInt = true
    · simp only [hb, hi, Bool.false_eq_true, if_false, if_true, addInt,
        declare_error_of_lookup _ _ hl]
    · have hi : (ConfigEntry.mk t n h r d c p).IsInt = false := by simpa using hi
      have hs : (ConfigEntry.mk t n h r d c p).IsString = true := by
        simpa [ConfigEntry.IsScalar, hb, hi] using hsc
      simp only [hb, hi, hs, Bool.false_eq_true, if_false, if_true, addString,
        declare_error_of_lookup _ _ hl]

mutual
/-- Registration of a tree whose visited entries all have a known type, against
a registry that already holds a flag under the name of every visited scalar:
without a visited scalar it returns, leaving the registry as it was; otherwise
it panics at the first visited scalar, with the redefinition error for that
scalar's flag name. -/
theorem addConfigChildren_redeclare :
    ∀ (es : List ConfigEntry) (fs : FlagSet) (cfg : Viper) (p : String),
      (∀ e ∈ reached (stamp p es), e.IsKnown = true) →
      (∀ e ∈ reached (stamp p es), e.IsScalar = true →
        (fs.Lookup e.FlagName).isSome = true) →
      ((reached (stamp p es)).filter ConfigEntry.IsScalar = [] →
        ∃ cfg1, addConfigChildren fs cfg p es = .ok (fs, cfg1, stamp p es)) ∧
      (∀ e l, (reached (stamp p es)).filter ConfigEntry.IsScalar = e :: l →
        addConfigChildren fs cfg p es = .error (.flagRedefined e.FlagName))
  | [], fs, cfg, p => by
    intro _ _
    constructor
    · intro _
      exact ⟨cfg, by simp [addConfigChildren, stamp]⟩
    · intro e l hcons
      simp [stamp, reached] at hcons
  | x :: rest, fs, cfg, p => by
    intro hk hl
    have hsplit : reached (stamp p (x :: rest))
        = reachedFrom (stampEntry p x) ++ reached (stamp p rest) := by
      rw [stamp, reached]
    rw [hsplit] at hk hl
    obtain ⟨a1, a2⟩ := addConfigEntry_redeclare x fs cfg p
      (fun e he => hk e (List.mem_append.2 (Or.inl he)))
      (fun e he => hl e (List.mem_append.2 (Or.inl he)))
    have hrest := fun cfg1 => addConfigChildren_redeclare rest fs cfg1 p
      (fun e he => hk e (List.mem_append.2 (Or.inr he)))
      (fun e he => hl e (List.mem_append.2 (Or.inr he)))
    rw [hsplit, List.filter_append]
    constructor
    · intro hnil
      obtain ⟨h1, h2⟩ := List.append_eq_nil.1 hnil
      obtain ⟨cfg1, e1⟩ := a1 h1
      obtain ⟨cfg2, e2⟩ := (hrest cfg1).1 h2
      refine ⟨cfg2, ?_⟩
      rw [addConfigChildren]
      simp only [e1, e2]
      rw [stamp]
    · intro e l hcons
      cases hfirst : (reachedFrom (stampEntry p x)).filter ConfigEntry.IsScalar with
      | nil =>
        rw [hfirst, List.nil_append] at hcons
        obtain ⟨cfg1, e1⟩ := a1 hfirst
        have e2 := (hrest cfg1).2 e l hcons
        rw [addConfigChildren]
        simp only [e1, e2]
      | cons e0 l0 =>
        rw [hfirst, List.cons_append, List.cons.injEq] at hcons
        have e1 := a2 e0 l0 hfirst
        rw [hcons.1] at e1
        rw [addConfigChildren]
        simp only [e1]
theorem addConfigEntry_redeclare :
    ∀ (x : ConfigEntry) (fs : FlagSet) (cfg : Viper) (p : String),
      (∀ e ∈ reachedFrom (stampEntry p x), e.IsKnown = true) →
      (∀ e ∈ reachedFrom (stampEntry p x), e.IsScalar = true →
        (fs.Lookup e.FlagName).isSome = true) →
      ((reachedFrom (stampEntry p x)).filter ConfigEntry.IsScalar = [] →
        ∃ cfg1, addConfigEntry fs cfg p x = .ok (fs, cfg1, stampEntry p x)) ∧
      (∀ e l, (reachedFrom (stampEntry p x)).filter ConfigEntry.IsScalar = e :: l →
        addConfigEntry fs cfg p x = .error (.flagRedefined e.FlagName))
  | .mk t n h r d c q, fs, cfg, p => by
    intro hk hl
    by_cases hp : (ConfigEntry.mk t n h r d c p).IsParent = true
    · have hst : stampEntry p (ConfigEntry.mk t n h r d c q)
          = ConfigEntry.mk t n h r d (stamp (ConfigEntry.mk t n h r d c p).GetName c) p := by
        rw [stampEntry]
        simp only [hp, if_true]
      have hp1 : (ConfigEntry.mk t n h r d
          (stamp (ConfigEntry.mk t n h r d c p).GetName c) p).IsParent = true := hp
      obtain ⟨hb, hi, hs⟩ := isParent_not_scalar _ hp
      have hns : (ConfigEntry.mk t n h r d
          (stamp (ConfigEntry.mk t n h r d c p).GetName c) p).IsScalar = false := by
        obtain ⟨hb1, hi1, hs1⟩ := isParent_not_scalar _ hp1
        simp [ConfigEntry.IsScalar, hb1, hi1, hs1]
      have hre : reachedFrom (ConfigEntry.mk t n h r d
          (stamp (ConfigEntry.mk t n h r d c p).GetName c) p)
          = ConfigEntry.mk t n h r d (stamp (ConfigEntry.mk t n h r d c p).GetName c) p
            :: reached (stamp (ConfigEntry.mk t n h r d c p).GetName c) := by
        rw [reachedFrom]
        simp only [hp1, if_true]
      rw [hst, hre] at hk hl
      obtain ⟨c1, c2⟩ := addConfigChildren_redeclare c fs cfg (ConfigEntry.mk t n h r d c p).GetName
        (fun e he => hk e (List.mem_cons_of_mem _ he))
        (fun e he => hl e (List.mem_cons_of_mem _ he))
      rw [hst, hre, List.filter_cons_of_neg (by simp [hns])]
      constructor
      · intro hnil
        obtain ⟨cfg1, e1⟩ := c1 hnil
        refine ⟨bindEntry fs cfg1 (ConfigEntry.mk t n h r d
          (stamp (ConfigEntry.mk t n h r d c p).GetName c) p), ?_⟩
        rw [addConfigEntry]
        simp only [hb, hi, hs, hp, Bool.false_eq_true, if_false, if_true, e1]
      · intro e l hcons
        have e1 := c2 e l hcons
        rw [addConfigEntry]
        simp only [hb, hi, hs, hp, Bool.false_eq_true, if_false, if_true, e1]
    · have hp : (ConfigEntry.mk t n h r d c p).IsParent = false := by simpa using hp
      have hst := stampEntry_leaf p t n h r d c q hp
      rw [hst, reachedFrom_leaf _ hp] at hk hl
      have hkn := hk _ (List.mem_singleton.2 rfl)
      have hsc : (ConfigEntry.mk t n h r d c p).IsScalar = true := by
        simpa [ConfigEntry.IsKnown, hp] using hkn
      have hlook := hl _ (List.mem_singleton.2 rfl) hsc
      rw [hst, reachedFrom_leaf _ hp, List.filter_cons_of_pos hsc, List.filter_nil]
      constructor
      · intro hnil
        simp at hnil
      · intro e l hcons
        rw [List.cons.injEq] at hcons
        rw [← hcons.1]
        exact addConfigEntry_redeclared fs cfg p t n h r d c q hsc hlook
end

/-! ## Claims -/

/-- C1: for every store and every entry list, `verifyRequiredConfigs` returns
exactly the fully-qualified names, in visiting order, of the visited entries
that are `Required` and either of string type resolving to `""` or of int type
resolving to `0`; an entry that is not required, or whose resolved value is
not the zero value, contributes nothing. -/
theorem C1_verifyRequiredConfigs_refines_spec (R : Resolution) (fs : FlagSet) (cfg : Viper)
    (p : String) (es : List ConfigEntry) :
    verifyRequiredConfigs R fs cfg p es = missingSpec R fs cfg es ∧
    (∀ e : ConfigEntry, e.IsParent = false →
      (e.Required = false ∨
        ((e.IsString = true → R.GetString fs cfg e.GetName ≠ "") ∧
         (e.IsInt = true → R.GetInt fs cfg e.GetName ≠ 0))) →
      verifyRequiredConfigs R fs cfg p [e] = []) := by
  refine ⟨verifyRequiredConfigs_eq R fs cfg p es, ?_⟩
  intro e hp h
  rw [verifyRequiredConfigs_eq]
  cases e with
  | mk t n hh r d c q =>
    have hm : isMissing R fs cfg (ConfigEntry.mk t n hh r d c q) = false := by
      rcases h with h | ⟨h1, h2⟩
      · simp [isMissing, h]
      · simp only [isMissing, Bool.and_eq_false_imp, Bool.or_eq_false_iff, beq_eq_false_iff_ne]
        intro _
        exact ⟨fun hs => h1 hs, fun hi => h2 hi⟩
    simp [reached, reachedFrom, hp, hm]

theorem C1_verifyRequiredConfigs_refines_spec_witness :
    (verifyRequiredConfigs defaultsResolution sampleRegistered.1 sampleRegistered.2.1 ""
        sampleRegistered.2.2
      = missingSpec defaultsResolution sampleRegistered.1 sampleRegistered.2.1
          sampleRegistered.2.2 ∧
    missingSpec defaultsResolution sampleRegistered.1 sampleRegistered.2.1 sampleRegistered.2.2
      = ["slack.token", "db.username", "db.password", "db.name"]) ∧
    verifyRequiredConfigs defaultsResolution sampleRegistered.1 sampleRegistered.2.1 ""
        [.mk IntType "port" "Port on which to connect to the db" true (.int 3306) [] "db"]
      = [] :=
  ⟨⟨(C1_verifyRequiredConfigs_refines_spec defaultsResolution sampleRegistered.1
      sampleRegistered.2.1 "" sampleRegistered.2.2).1, by decide⟩,
   (C1_verifyRequiredConfigs_refines_spec defaultsResolution sampleRegistered.1
      sampleRegistered.2.1 "" []).2
      (.mk IntType "port" "Port on which to connect to the db" true (.int 3306) [] "db")
      (by decide) (Or.inr ⟨fun h => absurd h (by decide), fun _ => by decide⟩)⟩

/-- C4: `GetName()` is `Name` when the prefix is empty and
`prefix + "." + Name` otherwise. -/
theorem C4_getName (e : ConfigEntry) :
    (e.pfx = "" → e.GetName = e.Name) ∧
    (e.pfx ≠ "" → e.GetName = e.pfx ++ "." ++ e.Name) := by
  constructor
  · intro h
    simp [ConfigEntry.GetName, h]
  · intro h
    simp [ConfigEntry.GetName, h]

theorem C4_getName_witness :
    ConfigEntry.GetName (.mk IntType "port" "" true (.int 80) [] "") = "port" ∧
    ConfigEntry.GetName (.mk IntType "port" "" true (.int 3306) [] "db") = "db.port" :=
  ⟨(C4_getName (.mk IntType "port" "" true (.int 80) [] "")).1 (by decide),
   (C4_getName (.mk IntType "port" "" true (.int 3306) [] "db")).2 (by decide)⟩

/-- C5: `FlagName()` is `GetName()` with every `.` replaced by `-` and nothing
else changed: same length, no `.` left, `-` wherever `GetName()` has `.`, and
the character of `GetName()` at every other position. -/
theorem C5_flagName (e : ConfigEntry) :
    e.FlagName.length = e.GetName.length ∧
    '.' ∉ e.FlagName.data ∧
    (∀ (i : Nat) (c : Char), e.GetName.data[i]? = some c →
      (c = '.' → e.FlagName.data[i]? = some '-') ∧
      (c ≠ '.' → e.FlagName.data[i]? = some c)) := by
  have hd := flagName_data e
  refine ⟨?_, ?_, ?_⟩
  · show e.FlagName.data.length = e.GetName.data.length
    rw [hd, List.length_map]
  · rw [hd]
    intro hmem
    obtain ⟨c, _, hc⟩ := List.mem_map.1 hmem
    by_cases h : c = '.'
    · rw [if_pos h] at hc
      exact absurd hc (by decide)
    · rw [if_neg h] at hc
      exact h hc
  · intro i c hi
    rw [hd, List.getElem?_map, hi]
    constructor
    · intro h
      simp [h]
    · intro h
      simp [h]

theorem C5_flagName_witness :
    ConfigEntry.FlagName (.mk IntType "port" "" true (.int 3306) [] "db") = "db-port" ∧
    (ConfigEntry.FlagName (.mk IntType "port" "" true (.int 3306) [] "db")).data[2]? = some '-' ∧
    (ConfigEntry.FlagName (.mk IntType "port" "" true (.int 3306) [] "db")).data[3]? = some 'p' :=
  ⟨by decide,
   ((C5_flagName (.mk IntType "port" "" true (.int 3306) [] "db")).2.2 2 '.' (by decide)).1 rfl,
   ((C5_flagName (.mk IntType "port" "" true (.int 3306) [] "db")).2.2 3 'p' (by decide)).2
     (by decide)⟩

/-- C2 (as stated, on the tree as declared): with no prefixes stamped on the
nodes, the entry `B` under `G` is reported by its bare name, so the result is
`["A", "B"]` and not `["A", "G.B"]`. -/
theorem C2_unregistered_tree_reports_bare_names :
    verifyRequiredConfigs zeroResolution [] Viper.New "" orderTree = ["A", "B"] ∧
    verifyRequiredConfigs zeroResolution [] Viper.New "" orderTree ≠ ["A", "G.B"] := by
  constructor <;> decide

/-- C2 (amended): once `addConfigChildren` has registered the tree from root
prefix `""`, validation against a store in which every key resolves to the zero
value returns `["A", "G.B"]`, in that order. -/
theorem C2_order_after_registration (R : Resolution) (fs fs0 fs1 : FlagSet)
    (cfg cfg0 cfg1 : Viper) (es1 : List ConfigEntry)
    (hreg : addConfigChildren fs0 cfg0 "" orderTree = .ok (fs1, cfg1, es1))
    (hs : ∀ k, R.GetString fs cfg k = "") (hi : ∀ k, R.GetInt fs cfg k = 0) :
    verifyRequiredConfigs R fs cfg "" es1 = ["A", "G.B"] := by
  obtain ⟨h1, _⟩ := addConfigChildren_ok _ _ _ _ _ _ _ hreg
  have h2 : stamp "" orderTree =
      [ .mk StringType "A" "" true (.str "") [] "",
        .mk ParentType "G" "" false .nil
          [ .mk StringType "B" "" true (.str "") [] "G",
            .mk StringType "C" "" false (.str "") [] "G" ] "" ] := by rfl
  rw [h1, h2, verifyRequiredConfigs_eq]
  have e1 : ConfigEntry.GetName (.mk StringType "A" "" true (.str "") [] "") = "A" := by decide
  have e2 : ConfigEntry.GetName (.mk StringType "B" "" true (.str "") [] "G") = "G.B" := by
    decide
  simp [reached, reachedFrom, isMissing, ConfigEntry.IsParent, ConfigEntry.IsString,
    ConfigEntry.IsInt, ConfigEntry.Typ, ConfigEntry.Required, hs, hi, StringType, ParentType,
    IntType, List.filter_cons]
  exact ⟨e1, e2⟩

theorem C2_order_after_registration_witness :
    addConfigChildren [] Viper.New "" orderTree
        = .ok (orderRegistered.1, orderRegistered.2.1, orderRegistered.2.2) ∧
    verifyRequiredConfigs zeroResolution [] Viper.New "" orderRegistered.2.2 = ["A", "G.B"] :=
  ⟨rfl, C2_order_after_registration zeroResolution [] [] _ Viper.New Viper.New _ _ rfl
    (fun _ => rfl) (fun _ => rfl)⟩

/-- C3: after `addConfigChildren` returns, the tree is the given one with its
prefixes rewritten: every entry of the list has prefix `p`, every child of a
visited parent entry has the parent's `GetName()` as prefix, and for root prefix
`""` the `GetName()` of a node reached through parents with non-empty names
`n1, ..., nk` is `n1 + "." + ... + nk + "." + Name`, whatever the prefixes were
before the call. -/
theorem C3_registration_stamps_prefixes (fs fs1 : FlagSet) (cfg cfg1 : Viper) (p : String)
    (es es1 : List ConfigEntry)
    (hreg : addConfigChildren fs cfg p es = .ok (fs1, cfg1, es1)) :
    es1 = stamp p es ∧
    (∀ e ∈ es1, e.pfx = p) ∧
    (∀ g ∈ reached es1, g.IsParent = true → ∀ c ∈ g.Children, c.pfx = g.GetName) ∧
    (p = "" → ∀ x ∈ reachedPaths es1, (∀ a ∈ x.1, a ≠ "") →
      x.2.GetName = dottedPath x.1 x.2.Name) := by
  obtain ⟨h1, _⟩ := addConfigChildren_ok _ _ _ _ _ _ _ hreg
  subst h1
  refine ⟨rfl, stamp_pfx p es, stamp_children es p, ?_⟩
  intro hp x hx hne
  rw [stamp_paths es p x hx hne, hp]
  rfl

theorem C3_registration_stamps_prefixes_witness :
    addConfigChildren [] Viper.New "" sampleSchema
        = .ok (sampleRegistered.1, sampleRegistered.2.1, sampleRegistered.2.2) ∧
    sampleRegistered.2.2 = stamp "" sampleSchema ∧
    (∀ e ∈ sampleRegistered.2.2, e.pfx = "") ∧
    (∀ g ∈ reached sampleRegistered.2.2, g.IsParent = true →
      ∀ c ∈ g.Children, c.pfx = g.GetName) ∧
    ("" = "" → ∀ x ∈ reachedPaths sampleRegistered.2.2, (∀ a ∈ x.1, a ≠ "") →
      x.2.GetName = dottedPath x.1 x.2.Name) :=
  ⟨rfl, C3_registration_stamps_prefixes [] _ Viper.New _ "" sampleSchema _ rfl⟩

/-- C6: when `BuildConfig` returns, its error is non-nil exactly when
`verifyRequiredConfigs` over the registered tree is non-empty, and then it is
one error value carrying one message; the error the config-file read reports is
dropped, so a world that differs only in that error gives the same result. -/
theorem C6_buildConfig_error_iff_missing (W : World) (fs : FlagSet) (cfg : Option Viper)
    (es : List ConfigEntry) (r : BuildResult) (h : BuildConfig W fs cfg es = .ok r) :
    r.config = stamp "" es ∧
    (r.err ≠ none ↔ verifyRequiredConfigs W.resolution r.CommandLine r.cfg "" r.config ≠ []) ∧
    (verifyRequiredConfigs W.resolution r.CommandLine r.cfg "" r.config ≠ [] →
      ∃ msg, r.err = some msg) ∧
    (∀ W2 : World, (∀ c, (W2.ReadInConfig c).1 = (W.ReadInConfig c).1) →
      W2.Parse = W.Parse → W2.resolution = W.resolution →
      BuildConfig W2 fs cfg es = .ok r) := by
  obtain ⟨h1, h2⟩ := BuildConfig_ok h
  refine ⟨h1, ?_, ?_, ?_⟩
  · rw [h2]
    cases verifyRequiredConfigs W.resolution r.CommandLine r.cfg "" r.config <;> simp
  · intro hne
    rw [h2]
    cases hm : verifyRequiredConfigs W.resolution r.CommandLine r.cfg "" r.config with
    | nil => exact absurd hm hne
    | cons a l => simp
  · intro W2 hread hparse hres
    rw [← h]
    unfold BuildConfig
    simp only [hread, hparse, hres]

theorem C6_buildConfig_error_iff_missing_witness :
    (BuildConfig (quietWorld defaultsResolution) [] none sampleSchema
        = .ok (built (BuildConfig (quietWorld defaultsResolution) [] none sampleSchema)) ∧
      (built (BuildConfig (quietWorld defaultsResolution) [] none sampleSchema)).err ≠ none) ∧
    (BuildConfig suppliedWorld [] none sampleSchema
        = .ok (built (BuildConfig suppliedWorld [] none sampleSchema)) ∧
      (built (BuildConfig suppliedWorld [] none sampleSchema)).err = none) :=
  ⟨⟨rfl, (C6_buildConfig_error_iff_missing (quietWorld defaultsResolution) [] none sampleSchema
      _ rfl).2.1.2 (by decide)⟩,
   ⟨rfl, by
      have h := (C6_buildConfig_error_iff_missing suppliedWorld [] none sampleSchema _ rfl).2.1
      exact Classical.not_not.1 (fun hne => (h.1 hne) (by decide))⟩⟩

/-- C7: when `BuildConfig` returns an error, the message is
`"You must set these config itmes: ["`, the missing names of
`verifyRequiredConfigs` over the registered tree in order, separated by single
spaces, and `"]"`; so it contains the full dotted name of every missing
required entry. -/
theorem C7_buildConfig_error_message (W : World) (fs : FlagSet) (cfg : Option Viper)
    (es : List ConfigEntry) (r : BuildResult) (msg : String)
    (h : BuildConfig W fs cfg es = .ok r) (hm : r.err = some msg) :
    r.config = stamp "" es ∧
    msg = "You must set these config itmes: ["
      ++ " ".intercalate (verifyRequiredConfigs W.resolution r.CommandLine r.cfg "" r.config)
      ++ "]" ∧
    (∀ name ∈ verifyRequiredConfigs W.resolution r.CommandLine r.cfg "" r.config,
      Contains msg name) := by
  obtain ⟨h1, h2⟩ := BuildConfig_ok h
  have hmsg : msg = "You must set these config itmes: ["
      ++ " ".intercalate (verifyRequiredConfigs W.resolution r.CommandLine r.cfg "" r.config)
      ++ "]" := by
    rw [h2] at hm
    split at hm
    · simp only [Option.some.injEq] at hm
      rw [← hm, sprintV, ← String.append_assoc, ← String.append_assoc]
      rfl
    · simp at hm
  refine ⟨h1, hmsg, ?_⟩
  intro name hn
  rw [hmsg]
  exact contains_append_right _ (contains_append_left _ (intercalate_contains _ _ _ hn))

theorem C7_buildConfig_error_message_witness :
    BuildConfig (quietWorld defaultsResolution) [] none sampleSchema
        = .ok (built (BuildConfig (quietWorld defaultsResolution) [] none sampleSchema)) ∧
    (built (BuildConfig (quietWorld defaultsResolution) [] none sampleSchema)).err
        = some "You must set these config itmes: [slack.token db.username db.password db.name]" ∧
    Contains "You must set these config itmes: [slack.token db.username db.password db.name]"
      "db.username" :=
  ⟨rfl, by decide,
    (C7_buildConfig_error_message (quietWorld defaultsResolution) [] none sampleSchema _
      "You must set these config itmes: [slack.token db.username db.password db.name]"
      rfl (by decide)).2.2 "db.username" (by decide)⟩

/-- C8: when the entry list holds, at top level or below parent entries, an
entry whose `Type` is none of the four known tags, `addConfigChildren` panics
for every registry, store and root prefix, and `BuildConfig` panics with it:
neither returns a store or an error value. -/
theorem C8_unknown_type_panics (es : List ConfigEntry)
    (hunk : ∃ e ∈ reached es, e.IsKnown = false) :
    (∀ (fs : FlagSet) (cfg : Viper) (p : String),
      ∃ f, addConfigChildren fs cfg p es = .error f ∧ f.isPanic = true) ∧
    (∀ (W : World) (fs : FlagSet) (cfg : Option Viper),
      ∃ f, BuildConfig W fs cfg es = .error f ∧ f.isPanic = true) := by
  have key : ∀ (fs : FlagSet) (cfg : Viper) (p : String),
      ∃ f, addConfigChildren fs cfg p es = .error f ∧ f.isPanic = true := by
    intro fs cfg p
    cases hr : addConfigChildren fs cfg p es with
    | error f => exact ⟨f, rfl, addConfigChildren_error_isPanic es fs cfg p f hr⟩
    | ok ra =>
      exfalso
      obtain ⟨fs1, cfg1, es1⟩ := ra
      obtain ⟨h1, _, _, hk, _⟩ := addConfigChildren_ok _ _ _ _ _ _ _ hr
      subst h1
      obtain ⟨e, he, hek⟩ := hunk
      have hmem : e.Typ ∈ (reached (stamp p es)).map ConfigEntry.Typ := by
        rw [reached_stamp_typ]
        exact List.mem_map.2 ⟨e, he, rfl⟩
      obtain ⟨e2, he2, hty⟩ := List.mem_map.1 hmem
      have hk2 := hk e2 he2
      have : e.IsKnown = true := by
        simp only [ConfigEntry.IsKnown, ConfigEntry.IsScalar, ConfigEntry.IsBool,
          ConfigEntry.IsInt, ConfigEntry.IsString, ConfigEntry.IsParent, ← hty]
        exact hk2
      rw [this] at hek
      exact absurd hek (by decide)
  refine ⟨key, ?_⟩
  intro W fs cfg
  unfold BuildConfig
  simp only
  obtain ⟨f, hf, hp⟩ := key fs
    ((((((match cfg with
      | none => Viper.New
      | some c => c).SetEnvKeyReplacer "." "_").AutomaticEnv.SetConfigName "config").AddConfigPath
        "/etc/hackbot2000").AddConfigPath ".") |> fun c => (W.ReadInConfig c).1) ""
  exact ⟨f, by simp only [hf], hp⟩

theorem C8_unknown_type_panics_witness :
    addConfigChildren [] Viper.New "" floatSchema
      = .error (.unknownType "net.ratio is of unknown type: float") ∧
    (∃ e ∈ reached floatSchema, e.IsKnown = false) ∧
    (∀ (fs : FlagSet) (cfg : Viper) (p : String),
      ∃ f, addConfigChildren fs cfg p floatSchema = .error f ∧ f.isPanic = true) ∧
    (∀ (W : World) (fs : FlagSet) (cfg : Option Viper),
      ∃ f, BuildConfig W fs cfg floatSchema = .error f ∧ f.isPanic = true) :=
  ⟨rfl, floatSchema_has_unknown, C8_unknown_type_panics floatSchema floatSchema_has_unknown⟩

/-- C9: an entry of bool type is never reported as missing, whatever its
`Required` flag and resolved value: alone it yields the empty list, inside a
list it adds nothing, and a tree whose scalar entries are all of bool type
yields the empty list. -/
theorem C9_bool_never_missing (R : Resolution) (fs : FlagSet) (cfg : Viper) (p : String) :
    (∀ e : ConfigEntry, e.IsBool = true → verifyRequiredConfigs R fs cfg p [e] = []) ∧
    (∀ (xs ys : List ConfigEntry) (e : ConfigEntry), e.IsBool = true →
      verifyRequiredConfigs R fs cfg p (xs ++ e :: ys)
        = verifyRequiredConfigs R fs cfg p (xs ++ ys)) ∧
    (∀ es : List ConfigEntry,
      (∀ e ∈ reached es, e.IsScalar = true → e.IsBool = true) →
      verifyRequiredConfigs R fs cfg p es = []) := by
  have hbool : ∀ e : ConfigEntry, e.IsBool = true →
      reachedFrom e = [e] ∧ isMissing R fs cfg e = false := by
    intro e hb
    have hty : e.Typ = BoolType := by simpa [ConfigEntry.IsBool] using hb
    have hs : e.IsString = false := by
      simp only [ConfigEntry.IsString, hty]
      decide
    have hi : e.IsInt = false := by
      simp only [ConfigEntry.IsInt, hty]
      decide
    exact ⟨reachedFrom_leaf e (isParent_of_not_scalar (Or.inl hb)), by simp [isMissing, hs, hi]⟩
  refine ⟨?_, ?_, ?_⟩
  · intro e hb
    obtain ⟨h1, h2⟩ := hbool e hb
    rw [verifyRequiredConfigs_eq, reached, h1]
    simp [reached, h2]
  · intro xs ys e hb
    obtain ⟨h1, h2⟩ := hbool e hb
    rw [verifyRequiredConfigs_eq, verifyRequiredConfigs_eq, reached_append, reached_append,
      reached, h1]
    simp [h2]
  · intro es hall
    rw [verifyRequiredConfigs_eq]
    have hnone : (reached es).filter (isMissing R fs cfg) = [] := by
      rw [List.filter_eq_nil_iff]
      intro e he hm
      have hsi : e.IsString = true ∨ e.IsInt = true := by
        simp only [isMissing, Bool.and_eq_true, Bool.or_eq_true] at hm
        rcases hm.2 with h | h
        · exact Or.inl h.1
        · exact Or.inr h.1
      have hsc : e.IsScalar = true := by
        rcases hsi with h | h <;> simp [ConfigEntry.IsScalar, h]
      have hb := hall e he hsc
      have hty : e.Typ = BoolType := by simpa [ConfigEntry.IsBool] using hb
      rcases hsi with h | h
      · simp only [ConfigEntry.IsString, hty] at h
        exact absurd h (by decide)
      · simp only [ConfigEntry.IsInt, hty] at h
        exact absurd h (by decide)
    rw [hnone]
    rfl

theorem C9_bool_never_missing_witness :
    (∀ e ∈ reached boolSchema, e.IsScalar = true → e.IsBool = true) ∧
    verifyRequiredConfigs zeroResolution [] Viper.New "" boolSchema = [] :=
  ⟨by decide,
    (C9_bool_never_missing zeroResolution [] Viper.New "").2.2 boolSchema (by decide)⟩

/-- C10: after `addConfigChildren` returns, for every visited scalar entry whose
fully-qualified name no later-registered scalar shares, the store's default for
the key `GetName()` is the entry's `Default`, read by the accessor of its type
(`GetBool()`, `GetInt()` or `GetString()`). -/
theorem C10_registered_defaults (fs fs1 : FlagSet) (cfg cfg1 : Viper) (p : String)
    (es es1 : List ConfigEntry) (l1 l2 : List ConfigEntry) (e : ConfigEntry)
    (hreg : addConfigChildren fs cfg p es = .ok (fs1, cfg1, es1))
    (hsplit : scalars es1 = l1 ++ e :: l2)
    (hlast : ∀ x ∈ l2, x.GetName ≠ e.GetName) :
    cfg1.defaultOf e.GetName = some e.Default ∧
    (e.IsBool = true →
      ∃ b, e.GetBool = .ok b ∧ cfg1.defaultOf e.GetName = some (.bool b)) ∧
    (e.IsInt = true →
      ∃ i, e.GetInt = .ok i ∧ cfg1.defaultOf e.GetName = some (.int i)) ∧
    (e.IsString = true →
      ∃ s, e.GetString = .ok s ∧ cfg1.defaultOf e.GetName = some (.str s)) := by
  obtain ⟨_, heff⟩ := addConfigChildren_ok _ _ _ _ _ _ _ hreg
  obtain ⟨hd, ht⟩ := registered_default heff l1 l2 e hsplit hlast
  refine ⟨hd, ?_, ?_, ?_⟩
  · intro hb
    obtain ⟨b, hb2⟩ := hasType_bool hb ht
    exact ⟨b, by simp [ConfigEntry.GetBool, hb2], by rw [hd, hb2]⟩
  · intro hi
    obtain ⟨i, hi2⟩ := hasType_int hi ht
    exact ⟨i, by simp [ConfigEntry.GetInt, hi2], by rw [hd, hi2]⟩
  · intro hs
    obtain ⟨x, hs2⟩ := hasType_str hs ht
    exact ⟨x, by simp [ConfigEntry.GetString, hs2], by rw [hd, hs2]⟩

theorem C10_registered_defaults_witness :
    (addConfigChildren [] Viper.New "" sampleSchema
        = .ok (sampleRegistered.1, sampleRegistered.2.1, sampleRegistered.2.2) ∧
      sampleRegistered.2.1.defaultOf "db.port" = some (.int 3306)) ∧
    sampleRegistered.2.1.defaultOf "db.host" = some (.str "localhost") :=
  ⟨⟨rfl,
    (C10_registered_defaults [] _ Viper.New _ "" sampleSchema _
      ((scalars sampleRegistered.2.2).take 2)
      ((scalars sampleRegistered.2.2).drop 3)
      (.mk IntType "port" "Port on which to connect to the db" true (.int 3306) [] "db")
      rfl rfl (by decide)).1⟩,
   (C10_registered_defaults [] _ Viper.New _ "" sampleSchema _
      ((scalars sampleRegistered.2.2).take 3)
      ((scalars sampleRegistered.2.2).drop 4)
      (.mk StringType "host" "Hostname to connect to in the db" true (.str "localhost") [] "db")
      rfl rfl (by decide)).1⟩

/-- C11: a returning registration declares exactly one flag per visited scalar
entry, in visiting order, and none for any other entry: the flag is named
`FlagName()`, has the zero value of the entry's type (`false`, `0`, `""`) as
default and `Help` as description, its name was free before, looking the name
up gives that flag, and the store binds the key `GetName()` to it. -/
theorem C11_flags_declared_and_bound (fs fs1 : FlagSet) (cfg cfg1 : Viper) (p : String)
    (es es1 : List ConfigEntry)
    (hreg : addConfigChildren fs cfg p es = .ok (fs1, cfg1, es1)) :
    fs1 = fs ++ (scalars es1).map flagOf ∧
    (∀ e ∈ scalars es1,
      (flagOf e).Name = e.FlagName ∧ (flagOf e).Usage = e.Help ∧
      (e.IsBool = true → (flagOf e).DefValue = .bool false) ∧
      (e.IsInt = true → (flagOf e).DefValue = .int 0) ∧
      (e.IsString = true → (flagOf e).DefValue = .str "") ∧
      fs.Lookup e.FlagName = none ∧
      fs1.Lookup e.FlagName = some (flagOf e) ∧
      cfg1.boundFlag e.GetName = some e.FlagName) := by
  obtain ⟨hd1, hd2, hd3⟩ := addConfigChildren_declared hreg
  obtain ⟨_, _, hb, _⟩ := addConfigChildren_bound hreg
  refine ⟨hd1, ?_⟩
  intro e he
  obtain ⟨hmem, hsc⟩ := List.mem_filter.1 he
  refine ⟨rfl, rfl, ?_, ?_, ?_, hd2 e hmem hsc, hd3 e hmem hsc, hb e hmem hsc⟩
  · intro h
    simp [flagOf, zeroOf, h]
  · intro h
    have hty : e.Typ = IntType := by simpa [ConfigEntry.IsInt] using h
    have hnb : e.IsBool = false := by
      simp only [ConfigEntry.IsBool, hty]
      decide
    simp [flagOf, zeroOf, h, hnb]
  · intro h
    have hty : e.Typ = StringType := by simpa [ConfigEntry.IsString] using h
    have hnb : e.IsBool = false := by
      simp only [ConfigEntry.IsBool, hty]
      decide
    have hni : e.IsInt = false := by
      simp only [ConfigEntry.IsInt, hty]
      decide
    simp [flagOf, zeroOf, hnb, hni]

theorem C11_flags_declared_and_bound_witness :
    addConfigChildren [] Viper.New "" sampleSchema
        = .ok (sampleRegistered.1, sampleRegistered.2.1, sampleRegistered.2.2) ∧
    sampleRegistered.1.map Flag.Name
        = ["port", "slack-token", "db-port", "db-host", "db-username", "db-password", "db-name"] ∧
    sampleRegistered.1.Lookup "db-port"
        = some ⟨"db-port", "Port on which to connect to the db", .int 0, .int 0, false⟩ ∧
    sampleRegistered.2.1.boundFlag "db.port" = some "db-port" :=
  ⟨rfl, by decide,
    ((C11_flags_declared_and_bound [] sampleRegistered.1 Viper.New sampleRegistered.2.1 ""
      sampleSchema sampleRegistered.2.2 rfl).2 dbPortEntry dbPortEntry_mem).2.2.2.2.2.2.1,
    ((C11_flags_declared_and_bound [] sampleRegistered.1 Viper.New sampleRegistered.2.1 ""
      sampleSchema sampleRegistered.2.2 rfl).2 dbPortEntry dbPortEntry_mem).2.2.2.2.2.2.2⟩

/-- C12 (as stated): a second run of `addConfigChildren` on the same tree, with
the registry and store the first run left, does not complete: the first scalar
entry declares its flag again and the flag library panics. -/
theorem C12_second_run_on_same_registry_panics :
    addConfigChildren [] Viper.New "" sampleSchema
        = .ok (sampleRegistered.1, sampleRegistered.2.1, sampleRegistered.2.2) ∧
    addConfigChildren sampleRegistered.1 sampleRegistered.2.1 "" sampleRegistered.2.2
        = .error (.flagRedefined "port") :=
  ⟨rfl, rfl⟩

/-- C12 (amended): registration is idempotent on the prefix field wherever a
second run completes: stamping the registered tree again changes nothing, so a
second run with the same root prefix that returns leaves every node as the
first run left it. On the registry the first run left, the second run
completes exactly when the tree has no visited scalar entry; otherwise it
panics at the first visited scalar entry, with the flag library's redefinition
error for the flag name `FlagName()` of that entry. -/
theorem C12_prefixes_idempotent (fs fs1 : FlagSet) (cfg cfg1 : Viper) (p : String)
    (es es1 : List ConfigEntry)
    (hreg : addConfigChildren fs cfg p es = .ok (fs1, cfg1, es1)) :
    stamp p es1 = es1 ∧
    (∀ (fs2 fs3 : FlagSet) (cfg2 cfg3 : Viper) (es3 : List ConfigEntry),
      addConfigChildren fs2 cfg2 p es1 = .ok (fs3, cfg3, es3) → es3 = es1) ∧
    (∀ (e : ConfigEntry) (l : List ConfigEntry), scalars es1 = e :: l → ∀ cfg2 : Viper,
      addConfigChildren fs1 cfg2 p es1 = .error (.flagRedefined e.FlagName) ∧
      (Fatal.flagRedefined e.FlagName).isPanic = true) ∧
    (scalars es1 = [] → ∀ cfg2 : Viper,
      ∃ cfg3, addConfigChildren fs1 cfg2 p es1 = .ok (fs1, cfg3, es1)) := by
  obtain ⟨h1, _, _, hknown, _⟩ := addConfigChildren_ok _ _ _ _ _ _ _ hreg
  obtain ⟨_, _, hfirst⟩ := addConfigChildren_declared hreg
  have hidem : stamp p es1 = es1 := by rw [h1, stamp_idem]
  have hre : ∀ cfg2 : Viper,
      ((reached es1).filter ConfigEntry.IsScalar = [] →
        ∃ cfg3, addConfigChildren fs1 cfg2 p es1 = .ok (fs1, cfg3, es1)) ∧
      (∀ e l, (reached es1).filter ConfigEntry.IsScalar = e :: l →
        addConfigChildren fs1 cfg2 p es1 = .error (.flagRedefined e.FlagName)) := by
    intro cfg2
    have h := addConfigChildren_redeclare es1 fs1 cfg2 p
      (by rw [hidem]; exact hknown)
      (by
        rw [hidem]
        intro e he hs
        rw [hfirst e he hs]
        rfl)
    rw [hidem] at h
    exact h
  refine ⟨hidem, ?_, ?_, ?_⟩
  · intro fs2 fs3 cfg2 cfg3 es3 h2
    obtain ⟨h3, _⟩ := addConfigChildren_ok _ _ _ _ _ _ _ h2
    rw [h3, hidem]
  · intro e l hsc cfg2
    exact ⟨(hre cfg2).2 e l hsc, rfl⟩
  · intro hnil cfg2
    exact (hre cfg2).1 hnil

theorem C12_prefixes_idempotent_witness :
    addConfigChildren [] Viper.New "" sampleSchema
        = .ok (sampleRegistered.1, sampleRegistered.2.1, sampleRegistered.2.2) ∧
    addConfigChildren [] Viper.New "" sampleRegistered.2.2
        = .ok (sampleRegistered.1, sampleRegistered.2.1, sampleRegistered.2.2) ∧
    addConfigChildren groupsRegistered.1 groupsRegistered.2.1 "" groupsRegistered.2.2
        = .ok (groupsRegistered.1, groupsRegistered.2.1, groupsRegistered.2.2) ∧
    stamp "" sampleRegistered.2.2 = sampleRegistered.2.2 ∧
    addConfigChildren sampleRegistered.1 Viper.New "" sampleRegistered.2.2
        = .error (.flagRedefined "port") :=
  ⟨rfl, rfl, rfl,
    (C12_prefixes_idempotent [] sampleRegistered.1 Viper.New sampleRegistered.2.1 ""
      sampleSchema sampleRegistered.2.2 rfl).1,
    ((C12_prefixes_idempotent [] sampleRegistered.1 Viper.New sampleRegistered.2.1 ""
      sampleSchema sampleRegistered.2.2 rfl).2.2.1
      (.mk IntType "port" "Port on which to listen for requests" true (.int 80) [] "")
      ((scalars sampleRegistered.2.2).drop 1) rfl Viper.New).1⟩

/-- C13: the tree is immutable except for the prefixes: after a returning
`addConfigChildren` every node has the `Type`, `Name`, `Help`, `Required`,
`Default` and `Children` (same nodes, same order) it had before;
`verifyRequiredConfigs` writes nothing, so the tree and the store `BuildConfig`
returns after validation are exactly those registration returned, the prefixes
being the registered ones. -/
theorem C13_tree_immutable_except_prefix :
    (∀ (fs fs1 : FlagSet) (cfg cfg1 : Viper) (p : String) (es es1 : List ConfigEntry),
      addConfigChildren fs cfg p es = .ok (fs1, cfg1, es1) →
      forgetPrefixes es1 = forgetPrefixes es ∧ es1.length = es.length) ∧
    (∀ (W : World) (fs : FlagSet) (c : Viper) (es : List ConfigEntry) (r : BuildResult),
      BuildConfig W fs (some c) es = .ok r →
      (∃ fs1, addConfigChildren fs (W.ReadInConfig (configured c)).1 "" es
          = .ok (fs1, r.cfg, r.config)) ∧
      r.config = stamp "" es ∧ forgetPrefixes r.config = forgetPrefixes es) := by
  constructor
  · intro fs fs1 cfg cfg1 p es es1 hreg
    obtain ⟨h1, _⟩ := addConfigChildren_ok _ _ _ _ _ _ _ hreg
    have hf : forgetPrefixes es1 = forgetPrefixes es := by rw [h1, forgetPrefixes_stamp]
    refine ⟨hf, ?_⟩
    have hlen : ∀ l : List ConfigEntry, (forgetPrefixes l).length = l.length := by
      intro l
      induction l with
      | nil => simp [forgetPrefixes]
      | cons x l ih => simp [forgetPrefixes, ih]
    rw [← hlen es1, hf, hlen]
  · intro W fs c es r h
    obtain ⟨fs1, hreg, _⟩ := BuildConfig_some_ok h
    obtain ⟨h1, _⟩ := addConfigChildren_ok _ _ _ _ _ _ _ hreg
    exact ⟨⟨fs1, hreg⟩, h1, by rw [h1, forgetPrefixes_stamp]⟩

theorem C13_tree_immutable_except_prefix_witness :
    addConfigChildren [] Viper.New "" sampleSchema
        = .ok (sampleRegistered.1, sampleRegistered.2.1, sampleRegistered.2.2) ∧
    forgetPrefixes sampleRegistered.2.2 = forgetPrefixes sampleSchema ∧
    sampleRegistered.2.2.length = sampleSchema.length :=
  ⟨rfl, C13_tree_immutable_except_prefix.1 [] sampleRegistered.1 Viper.New sampleRegistered.2.1 ""
    sampleSchema sampleRegistered.2.2 rfl⟩

/-- C14 (as stated): in the tree `hyphenSchema` stamped from root prefix `""`,
whose segment names contain no dot, the scalar entries `a-b` and `a.b` have
different fully-qualified names and the same flag name `a-b`; registration then
panics on the flag declared twice. -/
theorem C14_hyphen_names_collide :
    scalars (stamp "" hyphenSchema)
        = [ .mk StringType "a-b" "" false (.str "") [] "",
            .mk StringType "b" "" false (.str "") [] "a" ] ∧
    (∀ e ∈ reached (stamp "" hyphenSchema), '.' ∉ e.Name.data) ∧
    ConfigEntry.GetName (.mk StringType "a-b" "" false (.str "") [] "") = "a-b" ∧
    ConfigEntry.GetName (.mk StringType "b" "" false (.str "") [] "a") = "a.b" ∧
    ConfigEntry.FlagName (.mk StringType "a-b" "" false (.str "") [] "") = "a-b" ∧
    ConfigEntry.FlagName (.mk StringType "b" "" false (.str "") [] "a") = "a-b" ∧
    addConfigChildren [] Viper.New "" hyphenSchema = .error (.flagRedefined "a-b") :=
  ⟨rfl, by decide, by decide, by decide, by decide, by decide, rfl⟩

/-- C14 (amended): in a tree stamped from root prefix `""` whose segment names
contain no hyphen, any two visited entries with different fully-qualified
names `GetName()` have different `FlagName()`. -/
theorem C14_flag_names_distinct (es : List ConfigEntry)
    (hnames : ∀ e ∈ reached es, noHyphen e.Name)
    (e1 e2 : ConfigEntry) (h1 : e1 ∈ reached (stamp "" es)) (h2 : e2 ∈ reached (stamp "" es))
    (hne : e1.GetName ≠ e2.GetName) :
    e1.FlagName ≠ e2.FlagName := by
  have hroot : noHyphen "" := by
    unfold noHyphen
    decide
  intro hf
  exact hne (flagName_injective_of_noHyphen
    (stamp_noHyphen es "" hroot hnames e1 h1) (stamp_noHyphen es "" hroot hnames e2 h2) hf)

theorem C14_flag_names_distinct_witness :
    (addConfigChildren [] Viper.New "" sampleSchema
        = .ok (sampleRegistered.1, sampleRegistered.2.1, stamp "" sampleSchema) ∧
      (∀ e ∈ reached sampleSchema, noHyphen e.Name)) ∧
    ConfigEntry.FlagName (.mk IntType "port" "Port on which to listen for requests" true
        (.int 80) [] "") ≠ dbPortEntry.FlagName :=
  ⟨⟨rfl, by unfold noHyphen; decide⟩,
    C14_flag_names_distinct sampleSchema (by unfold noHyphen; decide)
      (.mk IntType "port" "Port on which to listen for requests" true (.int 80) [] "")
      dbPortEntry
      (by
        have h : reached (stamp "" sampleSchema)
            = (.mk IntType "port" "Port on which to listen for requests" true (.int 80) [] "")
              :: (reached (stamp "" sampleSchema)).drop 1 := rfl
        rw [h]
        simp)
      (List.mem_of_mem_filter dbPortEntry_mem)
      (by decide)⟩

/-- C15 (as stated): `GetString()` on an entry whose `Type` is `"int"` returns
when its `Default` holds a string: the accessor asserts on `Default` and never
looks at `Type`. -/
theorem C15_accessor_ignores_type_tag :
    mistypedEntry.IsString = false ∧ mistypedEntry.IsInt = true ∧
    mistypedEntry.GetString = .ok "8080" :=
  ⟨by decide, by decide, rfl⟩

/-- C15 (amended): a typed accessor panics exactly when the dynamic type of
`Default` is not the asserted one, whatever the `Type` tag; so on an entry whose
`Default` is nil or has the dynamic type its `Type` declares, `GetString()` with
`Type` other than `"string"`, `GetInt()` with `Type` other than `"int"` and
`GetBool()` with `Type` other than `"bool"` panic instead of returning. -/
theorem C15_wrong_accessor_panics (e : ConfigEntry) :
    ((∃ f, e.GetString = .error f ∧ f.isPanic = true) ↔ ∀ s, e.Default ≠ .str s) ∧
    ((∃ f, e.GetInt = .error f ∧ f.isPanic = true) ↔ ∀ i, e.Default ≠ .int i) ∧
    ((∃ f, e.GetBool = .error f ∧ f.isPanic = true) ↔ ∀ b, e.Default ≠ .bool b) ∧
    (e.Default = .nil ∨ e.Default.hasType e.Typ = true →
      (e.IsString = false → ∃ f, e.GetString = .error f ∧ f.isPanic = true) ∧
      (e.IsInt = false → ∃ f, e.GetInt = .error f ∧ f.isPanic = true) ∧
      (e.IsBool = false → ∃ f, e.GetBool = .error f ∧ f.isPanic = true)) := by
  have hS : (∃ f, e.GetString = .error f ∧ f.isPanic = true) ↔ ∀ s, e.Default ≠ .str s := by
    unfold ConfigEntry.GetString
    cases e.Default <;> simp [Fatal.isPanic]
  have hI : (∃ f, e.GetInt = .error f ∧ f.isPanic = true) ↔ ∀ i, e.Default ≠ .int i := by
    unfold ConfigEntry.GetInt
    cases e.Default <;> simp [Fatal.isPanic]
  have hB : (∃ f, e.GetBool = .error f ∧ f.isPanic = true) ↔ ∀ b, e.Default ≠ .bool b := by
    unfold ConfigEntry.GetBool
    cases e.Default <;> simp [Fatal.isPanic]
  refine ⟨hS, hI, hB, ?_⟩
  intro hd
  refine ⟨?_, ?_, ?_⟩
  · intro hns
    rw [hS]
    intro s hs
    rcases hd with h | h
    · rw [hs] at h
      exact absurd h (by simp)
    · rw [hs] at h
      simp only [Value.hasType] at h
      simp [ConfigEntry.IsString, h] at hns
  · intro hni
    rw [hI]
    intro i hi
    rcases hd with h | h
    · rw [hi] at h
      exact absurd h (by simp)
    · rw [hi] at h
      simp only [Value.hasType] at h
      simp [ConfigEntry.IsInt, h] at hni
  · intro hnb
    rw [hB]
    intro b hb
    rcases hd with h | h
    · rw [hb] at h
      exact absurd h (by simp)
    · rw [hb] at h
      simp only [Value.hasType] at h
      simp [ConfigEntry.IsBool, h] at hnb

theorem C15_wrong_accessor_panics_witness :
    (dbPortEntry.Default = .nil ∨ dbPortEntry.Default.hasType dbPortEntry.Typ = true) ∧
    dbPortEntry.IsString = false ∧
    dbPortEntry.GetInt = .ok 3306 ∧
    (∃ f, dbPortEntry.GetString = .error f ∧ f.isPanic = true) :=
  ⟨Or.inr (by decide), by decide, rfl,
    ((C15_wrong_accessor_panics dbPortEntry).2.2.2 (Or.inr (by decide))).1 (by decide)⟩

/-- C16: the store is threaded, not replaced: the store a returning
`addConfigChildren` hands back is the given one with the registered defaults
and bindings put in front of those it held, all other settings kept, across
parent recursion too; `BuildConfig` called with a store returns the store that
registration handed back for that configured store, whether the returned error
is nil or not, and where the config-file read keeps defaults and bindings, what
the given store held is still in it. -/
theorem C16_store_threaded :
    (∀ (fs fs1 : FlagSet) (cfg cfg1 : Viper) (p : String) (es es1 : List ConfigEntry),
      addConfigChildren fs cfg p es = .ok (fs1, cfg1, es1) →
      cfg1.defaults
          = ((scalars es1).map (fun e => (e.GetName, e.Default))).reverse ++ cfg.defaults ∧
      (∃ bs, cfg1.pflags = bs ++ cfg.pflags) ∧
      (∀ e ∈ scalars es1, cfg1.boundFlag e.GetName = some e.FlagName) ∧
      cfg1 = { cfg with defaults := cfg1.defaults, pflags := cfg1.pflags }) ∧
    (∀ (W : World) (fs : FlagSet) (c : Viper) (es : List ConfigEntry) (r : BuildResult),
      BuildConfig W fs (some c) es = .ok r →
      (∃ fs1, addConfigChildren fs (W.ReadInConfig (configured c)).1 "" es
          = .ok (fs1, r.cfg, r.config)) ∧
      (∀ e ∈ scalars r.config, r.cfg.boundFlag e.GetName = some e.FlagName) ∧
      ((W.ReadInConfig (configured c)).1.defaults = c.defaults →
        r.cfg.defaults
          = ((scalars r.config).map (fun e => (e.GetName, e.Default))).reverse ++ c.defaults) ∧
      ((W.ReadInConfig (configured c)).1.pflags = c.pflags →
        ∃ bs, r.cfg.pflags = bs ++ c.pflags)) := by
  have key : ∀ (fs fs1 : FlagSet) (cfg cfg1 : Viper) (p : String) (es es1 : List ConfigEntry),
      addConfigChildren fs cfg p es = .ok (fs1, cfg1, es1) →
      cfg1.defaults
          = ((scalars es1).map (fun e => (e.GetName, e.Default))).reverse ++ cfg.defaults ∧
      (∃ bs, cfg1.pflags = bs ++ cfg.pflags) ∧
      (∀ e ∈ scalars es1, cfg1.boundFlag e.GetName = some e.FlagName) ∧
      cfg1 = { cfg with defaults := cfg1.defaults, pflags := cfg1.pflags } := by
    intro fs fs1 cfg cfg1 p es es1 hreg
    obtain ⟨_, _, hdef, _, _⟩ := addConfigChildren_ok _ _ _ _ _ _ _ hreg
    obtain ⟨_, ⟨bs, hbs, _⟩, hb, h1, h2, h3, h4, h5⟩ := addConfigChildren_bound hreg
    refine ⟨hdef, ⟨bs, hbs⟩, ?_, ?_⟩
    · intro e he
      obtain ⟨hmem, hsc⟩ := List.mem_filter.1 he
      exact hb e hmem hsc
    · cases cfg1
      cases cfg
      simp only at h1 h2 h3 h4 h5
      simp [h1, h2, h3, h4, h5]
  refine ⟨key, ?_⟩
  intro W fs c es r h
  obtain ⟨fs1, hreg, _⟩ := BuildConfig_some_ok h
  obtain ⟨k1, k2, k3, _⟩ := key _ _ _ _ _ _ _ hreg
  refine ⟨⟨fs1, hreg⟩, k3, ?_, ?_⟩
  · intro hd
    rw [k1, hd]
  · intro hp
    rw [← hp]
    exact k2

theorem C16_store_threaded_witness :
    (BuildConfig (quietWorld defaultsResolution) [] (some givenStore) sampleSchema
        = .ok (built (BuildConfig (quietWorld defaultsResolution) [] (some givenStore)
            sampleSchema)) ∧
      (built (BuildConfig (quietWorld defaultsResolution) [] (some givenStore)
          sampleSchema)).err ≠ none ∧
      (built (BuildConfig (quietWorld defaultsResolution) [] (some givenStore)
          sampleSchema)).cfg.defaultOf "region" = some (.str "eu") ∧
      (built (BuildConfig (quietWorld defaultsResolution) [] (some givenStore)
          sampleSchema)).cfg.defaultOf "db.port" = some (.int 3306)) ∧
    (BuildConfig suppliedWorld [] (some givenStore) sampleSchema
        = .ok (built (BuildConfig suppliedWorld [] (some givenStore) sampleSchema)) ∧
      (built (BuildConfig suppliedWorld [] (some givenStore) sampleSchema)).err = none ∧
      ∃ bs, (built (BuildConfig suppliedWorld [] (some givenStore) sampleSchema)).cfg.pflags
        = bs ++ givenStore.pflags) :=
  ⟨⟨rfl, by decide, by decide, by decide⟩,
   ⟨rfl, by decide,
    (C16_store_threaded.2 suppliedWorld [] givenStore sampleSchema
      (built (BuildConfig suppliedWorld [] (some givenStore) sampleSchema)) rfl).2.2.2 rfl⟩⟩

/-- C17 (as stated): the bind after a parent entry is not always a no-op. In
`hyphenGroupSchema` the group `a.b` has the flag name `a-b`, which the scalar
`a-b` declared, so the store ends up binding the key `a.b`; and with a flag `db`
already declared in the process, the group `db` of the sample schema gets its
key bound. -/
theorem C17_parent_key_gets_bound :
    (addConfigChildren [] Viper.New "" hyphenGroupSchema
        = .ok (hyphenGroupRegistered.1, hyphenGroupRegistered.2.1, hyphenGroupRegistered.2.2) ∧
      (reached hyphenGroupRegistered.2.2).drop 2 = [hyphenGroupEntry] ∧
      hyphenGroupEntry.IsParent = true ∧
      hyphenGroupEntry.GetName = "a.b" ∧
      Viper.New.boundFlag "a.b" = none ∧
      hyphenGroupRegistered.2.1.boundFlag "a.b" = some "a-b") ∧
    (addConfigChildren dbFlagSet Viper.New "" sampleSchema
        = .ok (sampleOnDbRegistered.1, sampleOnDbRegistered.2.1, sampleOnDbRegistered.2.2) ∧
      Viper.New.boundFlag "db" = none ∧
      sampleOnDbRegistered.2.1.boundFlag "db" = some "db") :=
  ⟨⟨rfl, rfl, by decide, by decide, by decide, by decide⟩, ⟨rfl, by decide, by decide⟩⟩

/-- C17 (amended): after `addConfigChildren` returns, no flag has been declared
for a parent entry (the flags added are those of the visited scalar entries),
and the bind after a parent entry is a no-op whenever no flag is declared under
the parent's `FlagName()`: for such a parent the store holds a binding for the
key `GetName()` only if it held one before the call. -/
theorem C17_parent_bind_noop_without_flag (fs fs1 : FlagSet) (cfg cfg1 : Viper) (p : String)
    (es es1 : List ConfigEntry)
    (hreg : addConfigChildren fs cfg p es = .ok (fs1, cfg1, es1)) :
    fs1 = fs ++ (scalars es1).map flagOf ∧
    (∀ g ∈ reached es1, g.IsParent = true → g ∉ scalars es1) ∧
    (∀ (fs2 : FlagSet) (cfg2 : Viper) (g : ConfigEntry),
      fs2.Lookup g.FlagName = none → bindEntry fs2 cfg2 g = cfg2) ∧
    (∀ g ∈ reached es1, g.IsParent = true → fs1.Lookup g.FlagName = none →
      cfg1.boundFlag g.GetName = cfg.boundFlag g.GetName) := by
  obtain ⟨hd1, _, _⟩ := addConfigChildren_declared hreg
  obtain ⟨_, ⟨bs, hbs, hbs2⟩, _⟩ := addConfigChildren_bound hreg
  refine ⟨hd1, ?_, ?_, ?_⟩
  · intro g _ hp hmem
    obtain ⟨hb, hi, hs⟩ := isParent_not_scalar g hp
    have := (List.mem_filter.1 hmem).2
    simp [ConfigEntry.IsScalar, hb, hi, hs] at this
  · intro fs2 cfg2 g hl
    rcases bindEntry_cases fs2 cfg2 g with ⟨_, h⟩ | ⟨h, _⟩
    · exact h
    · rw [hl] at h
      exact absurd h (by simp)
  · intro g _ _ hl
    unfold Viper.boundFlag
    rw [hbs]
    apply lookup_append_of_forall_ne
    intro x hx hk
    obtain ⟨e, _, hxe, hsome⟩ := hbs2 x hx
    subst hxe
    rw [flagName_congr hk, hl] at hsome
    exact absurd hsome (by simp)

theorem C17_parent_bind_noop_without_flag_witness :
    (addConfigChildren [] Viper.New "" sampleSchema
        = .ok (sampleRegistered.1, sampleRegistered.2.1, sampleRegistered.2.2) ∧
      slackEntry.IsParent = true ∧
      sampleRegistered.1.Lookup slackEntry.FlagName = none) ∧
    sampleRegistered.2.1.boundFlag "slack" = Viper.New.boundFlag "slack" :=
  ⟨⟨rfl, by decide, by decide⟩,
    (C17_parent_bind_noop_without_flag [] sampleRegistered.1 Viper.New sampleRegistered.2.1 ""
      sampleSchema sampleRegistered.2.2 rfl).2.2.2 slackEntry slackEntry_mem (by decide)
      (by decide)⟩

/-- C18: `verifyRequiredConfigs` ignores its prefix argument: the result is the
same for any two prefixes; the names come from the prefixes held by the nodes,
so on a tree whose visited nodes all have an empty prefix every missing entry,
also one below a parent, is reported by its bare `Name`. -/
theorem C18_prefix_argument_ignored (R : Resolution) (fs : FlagSet) (cfg : Viper)
    (es : List ConfigEntry) :
    (∀ p q : String,
      verifyRequiredConfigs R fs cfg p es = verifyRequiredConfigs R fs cfg q es) ∧
    ((∀ e ∈ reached es, e.pfx = "") → ∀ p : String,
      verifyRequiredConfigs R fs cfg p es
        = ((reached es).filter (isMissing R fs cfg)).map ConfigEntry.Name) := by
  constructor
  · intro p q
    rw [verifyRequiredConfigs_eq, verifyRequiredConfigs_eq]
  · intro hpfx p
    rw [verifyRequiredConfigs_eq]
    apply List.map_congr_left
    intro e he
    have := hpfx e (List.mem_filter.1 he).1
    simp [ConfigEntry.GetName, this]

theorem C18_prefix_argument_ignored_witness :
    (∀ e ∈ reached orderTree, e.pfx = "") ∧
    verifyRequiredConfigs zeroResolution [] Viper.New "anything" orderTree
      = ((reached orderTree).filter (isMissing zeroResolution [] Viper.New)).map
          ConfigEntry.Name ∧
    ((reached orderTree).filter (isMissing zeroResolution [] Viper.New)).map ConfigEntry.Name
      = ["A", "B"] :=
  ⟨by decide,
    (C18_prefix_argument_ignored zeroResolution [] Viper.New orderTree).2 (by decide) "anything",
    by decide⟩

/-- C19: `verifyRequiredConfigs` distributes over concatenation and nesting:
the result for `xs ++ ys` is the result for `xs` followed by the result for
`ys`, the result for a single parent entry is the result for its `Children`,
and the length of the result never exceeds the number of visited `Required`
entries of string or int type. -/
theorem C19_distributes (R : Resolution) (fs : FlagSet) (cfg : Viper) (p : String) :
    (∀ xs ys : List ConfigEntry,
      verifyRequiredConfigs R fs cfg p (xs ++ ys)
        = verifyRequiredConfigs R fs cfg p xs ++ verifyRequiredConfigs R fs cfg p ys) ∧
    (∀ (g : ConfigEntry) (q : String), g.IsParent = true →
      verifyRequiredConfigs R fs cfg p [g] = verifyRequiredConfigs R fs cfg q g.Children) ∧
    (∀ es : List ConfigEntry,
      (verifyRequiredConfigs R fs cfg p es).length ≤ requiredCount es) := by
  refine ⟨?_, ?_, ?_⟩
  · intro xs ys
    simp only [verifyRequiredConfigs_eq, reached_append, List.filter_append, List.map_append]
  · intro g q hp
    cases g with
    | mk t n h r d c pf =>
      rw [verifyRequiredConfigs, verifyRequiredEntry]
      simp only [hp, if_true, verifyRequiredConfigs, List.append_nil]
      rw [verifyRequiredConfigs_eq, verifyRequiredConfigs_eq]
      rfl
  · intro es
    rw [verifyRequiredConfigs_eq, List.length_map]
    apply filter_length_le_of_imp
    intro e he
    simp only [isMissing, Bool.and_eq_true, Bool.or_eq_true] at he
    rcases he.2 with h | h
    · simp [he.1, h.1]
    · simp [he.1, h.1]

theorem C19_distributes_witness :
    slackEntry.IsParent = true ∧
    verifyRequiredConfigs defaultsResolution sampleRegistered.1 sampleRegistered.2.1 ""
        [slackEntry]
      = verifyRequiredConfigs defaultsResolution sampleRegistered.1 sampleRegistered.2.1 "slack"
          slackEntry.Children ∧
    verifyRequiredConfigs defaultsResolution sampleRegistered.1 sampleRegistered.2.1 "slack"
        slackEntry.Children = ["slack.token"] ∧
    (verifyRequiredConfigs defaultsResolution sampleRegistered.1 sampleRegistered.2.1 ""
        sampleRegistered.2.2).length ≤ requiredCount sampleRegistered.2.2 ∧
    requiredCount sampleRegistered.2.2 = 7 :=
  ⟨by decide,
    (C19_distributes defaultsResolution sampleRegistered.1 sampleRegistered.2.1 "").2.1
      slackEntry "slack" (by decide),
    by decide,
    (C19_distributes defaultsResolution sampleRegistered.1 sampleRegistered.2.1 "").2.2
      sampleRegistered.2.2,
    by decide⟩

/-- C20: `verifyRequiredConfigs` is total, so it returns a list for every store
and every tree, malformed or not: an entry whose `Type` is none of the four
known tags contributes nothing, alone or inside a list, even when marked
`Required`, and the `Children` attached to an entry that is not a parent
contribute nothing; `addConfigChildren` panics on such an entry. -/
theorem C20_validation_ignores_malformed (R : Resolution) (fs : FlagSet) (cfg : Viper)
    (p : String) :
    (∀ e : ConfigEntry, e.IsKnown = false → verifyRequiredConfigs R fs cfg p [e] = []) ∧
    (∀ (xs ys : List ConfigEntry) (e : ConfigEntry), e.IsKnown = false →
      verifyRequiredConfigs R fs cfg p (xs ++ e :: ys)
        = verifyRequiredConfigs R fs cfg p (xs ++ ys)) ∧
    (∀ (t n h : String) (r : Bool) (d : Value) (c : List ConfigEntry) (q : String),
      (ConfigEntry.mk t n h r d c q).IsParent = false →
      verifyRequiredConfigs R fs cfg p [ConfigEntry.mk t n h r d c q]
        = verifyRequiredConfigs R fs cfg p [ConfigEntry.mk t n h r d [] q]) ∧
    (∀ (e : ConfigEntry) (fs2 : FlagSet) (cfg2 : Viper), e.IsKnown = false →
      ∃ msg, addConfigChildren fs2 cfg2 p [e] = .error (.unknownType msg)) := by
  have hunk : ∀ e : ConfigEntry, e.IsKnown = false →
      reachedFrom e = [e] ∧ isMissing R fs cfg e = false := by
    intro e hk
    obtain ⟨_, hi, hs, hp⟩ := (isKnown_false_iff e).1 hk
    exact ⟨reachedFrom_leaf e hp, by simp [isMissing, hs, hi]⟩
  refine ⟨?_, ?_, ?_, ?_⟩
  · intro e hk
    obtain ⟨h1, h2⟩ := hunk e hk
    rw [verifyRequiredConfigs_eq, reached, h1]
    simp [reached, h2]
  · intro xs ys e hk
    obtain ⟨h1, h2⟩ := hunk e hk
    rw [verifyRequiredConfigs_eq, verifyRequiredConfigs_eq, reached_append, reached_append,
      reached, h1]
    simp [h2]
  · intro t n h r d c q hp
    have hp2 : (ConfigEntry.mk t n h r d [] q).IsParent = false := hp
    have hm : isMissing R fs cfg (ConfigEntry.mk t n h r d c q)
        = isMissing R fs cfg (ConfigEntry.mk t n h r d [] q) := rfl
    have hr : ∀ e : ConfigEntry, e.IsParent = false → reached [e] = [e] := by
      intro e he
      rw [reached, reachedFrom_leaf _ he]
      simp [reached]
    rw [verifyRequiredConfigs_eq, verifyRequiredConfigs_eq, hr _ hp, hr _ hp2]
    simp only [List.filter_cons, List.filter_nil, hm]
    split <;> rfl
  · intro e fs2 cfg2 hk
    obtain ⟨hb, hi, hs, hp⟩ := (isKnown_false_iff e).1 hk
    cases e with
    | mk t n h r d c q =>
      have hb2 : (ConfigEntry.mk t n h r d c p).IsBool = false := hb
      have hi2 : (ConfigEntry.mk t n h r d c p).IsInt = false := hi
      have hs2 : (ConfigEntry.mk t n h r d c p).IsString = false := hs
      have hp2 : (ConfigEntry.mk t n h r d c p).IsParent = false := hp
      refine ⟨(ConfigEntry.mk t n h r d c p).GetName ++ " is of unknown type: "
        ++ (ConfigEntry.mk t n h r d c p).Typ, ?_⟩
      rw [addConfigChildren, addConfigEntry]
      simp only [hb2, hi2, hs2, hp2, Bool.false_eq_true, if_false]

theorem C20_validation_ignores_malformed_witness :
    floatEntry.IsKnown = false ∧ floatEntry.Required = true ∧
    verifyRequiredConfigs zeroResolution [] Viper.New "" [floatEntry] = [] ∧
    addConfigChildren [] Viper.New "" [floatEntry]
      = .error (.unknownType "ratio is of unknown type: float") :=
  ⟨by decide, by decide,
    (C20_validation_ignores_malformed zeroResolution [] Viper.New "").1 floatEntry (by decide),
    rfl⟩

end SnakeCharm
